import Mathlib

/-!
Verification development for the speaker-attribution engine of the
who-said-that repository.

The three Python source files are embedded shallowly:

* namespace `Simple` models `transcript_analyzer_simple.py`;
* namespace `V1` models `transcript_analyzer.py`;
* namespace `V2` models `transcript_analyzer_v2.py`.

Text is modelled as `List Char`.  Python regular expressions are embedded
as a small pattern language `RE` together with a fuel-indexed backtracking
matcher that follows Python semantics: leftmost position wins, the first
alternative of an alternation is tried first, greedy and lazy repetition
backtrack in Python order.  Floating-point scores are modelled as exact
rationals; the one transcendental operation (`numpy.exp` inside the
logistic squash) is modelled over `ℝ` through a symbolic per-segment
confidence value `ConfVal`, so the whole pipeline stays executable.  The
external `textstat` readability library is modelled as an explicit
parameter of the analyzers (a function returning `Option ℚ`; `none`
models the library raising, which the Python code catches).
-/

namespace WhoSaidThat

/-- Python `\s` / `str.strip` whitespace over ASCII text
(space, tab, newline, carriage return, vertical tab, form feed). -/
def isWs (c : Char) : Bool :=
  c == ' ' || c == '\t' || c == '\n' || c == '\r' || c == '\x0b' || c == '\x0c'

/-- ASCII decimal digit (`\d` and the class in a `[0-9]`-style range). -/
def isDigitC (c : Char) : Bool :=
  decide ('0' ≤ c) && decide (c ≤ '9')

/-- ASCII letter (the class `[a-zA-Z]`, and `[A-Z]`/`[a-z]` under
`re.IGNORECASE`, which makes letter ranges match both cases). -/
def isAlphaC (c : Char) : Bool :=
  (decide ('a' ≤ c) && decide (c ≤ 'z')) || (decide ('A' ≤ c) && decide (c ≤ 'Z'))

/-- Python `\w` over ASCII text. -/
def isWordC (c : Char) : Bool :=
  isAlphaC c || isDigitC c || c == '_'

/-- Case-sensitive ASCII upper-case letter (the class `[A-Z]` with no flags). -/
def isUpperC (c : Char) : Bool :=
  decide ('A' ≤ c) && decide (c ≤ 'Z')

/-- Case-sensitive ASCII lower-case letter (the class `[a-z]` with no flags). -/
def isLowerC (c : Char) : Bool :=
  decide ('a' ≤ c) && decide (c ≤ 'z')

/-- Python `content.split('\n')`: always returns at least one (possibly
empty) line, and one extra line per newline character. -/
def splitNl : List Char → List (List Char)
  | [] => [[]]
  | c :: rest =>
    let r := splitNl rest
    if c == '\n' then [] :: r
    else
      match r with
      | [] => [[c]]
      | l :: ls => (c :: l) :: ls

/-- Python `str.strip()`: drop whitespace from both ends. -/
def stripL (l : List Char) : List Char :=
  ((l.dropWhile isWs).reverse.dropWhile isWs).reverse

/-- Truthiness of Python `not line.strip()`: the line is empty or
all-whitespace. -/
def isBlankL (l : List Char) : Bool := l.all isWs

/-- Python `'\n'.join(lines)`. -/
def joinNl : List (List Char) → List Char
  | [] => []
  | [l] => l
  | l :: ls => l ++ '\n' :: joinNl ls

/-- Helper for `splitWsCount`: the Boolean records whether the previous
character belonged to a word. -/
def splitWsCountGo : Bool → List Char → Nat
  | _, [] => 0
  | inw, c :: rest =>
    if isWs c then splitWsCountGo false rest
    else (if inw then 0 else 1) + splitWsCountGo true rest

/-- Number of fields of Python `text.split()` (maximal runs of
non-whitespace characters). -/
def splitWsCount (l : List Char) : Nat := splitWsCountGo false l

/-! ### A small embedding of Python regular expressions

Only the features the source patterns use: character classes,
concatenation, alternation, greedy and lazy star, the multiline anchors
`^` and `$`, and the word boundary `\b`.  Bounded repetitions, `+` and
`?` are derived forms. -/

inductive RE where
  | eps : RE
  | cls (p : Char → Bool) : RE
  | seq (a b : RE) : RE
  | alt (a b : RE) : RE
  | star (a : RE) : RE
  | starL (a : RE) : RE
  | bol : RE
  | eol : RE
  | wb : RE

/-- Structural size of a pattern, used for the fuel bound. -/
def reSize : RE → Nat
  | .eps => 1
  | .cls _ => 1
  | .seq a b => reSize a + reSize b + 1
  | .alt a b => reSize a + reSize b + 1
  | .star a => reSize a + 1
  | .starL a => reSize a + 1
  | .bol => 1
  | .eol => 1
  | .wb => 1

/-- Backtracking matcher in continuation style.  `prev` is the character
just before the current position (`none` at the start of the subject),
needed by `^`, `$` and `\b`; the continuation receives the updated
`prev` and the remaining input and returns the final remainder on
success.  Alternation tries the left branch first and greedy star tries
the longer match first, as Python does; an iteration of a star must
consume input, which mirrors Python's refusal to loop on an empty
repetition.  The fuel argument only forces termination and is chosen
large enough (see `refuel`) that it is never exhausted on the pattern
shapes used here. -/
def matchM : Nat → RE → Option Char → List Char →
    (Option Char → List Char → Option (List Char)) → Option (List Char)
  | 0, _, _, _, _ => none
  | fuel + 1, re, prev, s, k =>
    match re with
    | .eps => k prev s
    | .cls p =>
      match s with
      | [] => none
      | c :: rest => if p c then k (some c) rest else none
    | .seq a b => matchM fuel a prev s (fun p2 s2 => matchM fuel b p2 s2 k)
    | .alt a b =>
      match matchM fuel a prev s k with
      | some r => some r
      | none => matchM fuel b prev s k
    | .star a =>
      match matchM fuel a prev s (fun p2 s2 =>
          if s2.length < s.length then matchM fuel (.star a) p2 s2 k else none) with
      | some r => some r
      | none => k prev s
    | .starL a =>
      match k prev s with
      | some r => some r
      | none =>
        matchM fuel a prev s (fun p2 s2 =>
          if s2.length < s.length then matchM fuel (.starL a) p2 s2 k else none)
    | .bol => if prev.isNone || prev == some '\n' then k prev s else none
    | .eol => if s.isEmpty || s.head? == some '\n' then k prev s else none
    | .wb =>
      let pw := match prev with | some c => isWordC c | none => false
      let nw := match s with | c :: _ => isWordC c | [] => false
      if pw != nw then k prev s else none

/-- Fuel bound: ample for the patterns in this file (nesting depth is at
most `reSize` and every star iteration consumes a character). -/
def refuel (re : RE) (s : List Char) : Nat :=
  (s.length + 2) * (reSize re + 2)

/-- Python `re.match` at the current position: on success returns the
input minus the matched prefix (the first match in Python's backtracking
order). -/
def matchPref (re : RE) (prev : Option Char) (s : List Char) : Option (List Char) :=
  matchM (refuel re s) re prev s (fun _ r => some r)

/-- The character of `s` just before suffix `rest`, for resuming a scan. -/
def charBefore (s rest : List Char) : Option Char :=
  s.get? (s.length - rest.length - 1)

/-- Helper for `searchEx`: try each start position from left to right. -/
def searchExGo (re : RE) : Nat → Option Char → List Char → Bool
  | 0, _, _ => false
  | fuel + 1, prev, s =>
    if (matchPref re prev s).isSome then true
    else
      match s with
      | [] => false
      | c :: s2 => searchExGo re fuel (some c) s2

/-- Truthiness of Python `re.search(re, s)` (with `re.MULTILINE`
semantics for the anchors, which is what every anchored search in the
sources requests). -/
def searchEx (re : RE) (s : List Char) : Bool :=
  searchExGo re (s.length + 1) none s

/-- Helper for `scanCount`: count leftmost non-overlapping matches,
advancing past each match (or by one character after an empty match,
as `re.findall` does). -/
def scanCountGo (re : RE) : Nat → Option Char → List Char → Nat
  | 0, _, _ => 0
  | fuel + 1, prev, s =>
    match matchPref re prev s with
    | some rest =>
      if rest.length < s.length then
        1 + scanCountGo re fuel (charBefore s rest) rest
      else
        match s with
        | [] => 1
        | c :: s2 => 1 + scanCountGo re fuel (some c) s2
    | none =>
      match s with
      | [] => 0
      | c :: s2 => scanCountGo re fuel (some c) s2

/-- `len(re.findall(re, s))`. -/
def scanCount (re : RE) (s : List Char) : Nat :=
  scanCountGo re (s.length + 1) none s

/-- Helper for `subAll`: rebuild the subject with every leftmost
non-overlapping match deleted. -/
def subAllGo (re : RE) : Nat → Option Char → List Char → List Char
  | 0, _, s => s
  | fuel + 1, prev, s =>
    match matchPref re prev s with
    | some rest =>
      if rest.length < s.length then
        subAllGo re fuel (charBefore s rest) rest
      else
        match s with
        | [] => []
        | c :: s2 => c :: subAllGo re fuel (some c) s2
    | none =>
      match s with
      | [] => []
      | c :: s2 => c :: subAllGo re fuel (some c) s2

/-- Python `re.sub(re, '', s)` for unanchored patterns. -/
def subAll (re : RE) (s : List Char) : List Char :=
  subAllGo re (s.length + 1) none s

/-- Python `re.sub(re, '', line)` for a pattern anchored at `^` without
`re.MULTILINE`: only a match at position 0 is possible, so at most the
leading match is removed. -/
def subPref (re : RE) (line : List Char) : List Char :=
  match matchPref re none line with
  | some rest => rest
  | none => line

/-! ### Pattern construction helpers -/

/-- Concatenation of a list of patterns. -/
def rcat : List RE → RE
  | [] => .eps
  | [r] => r
  | r :: rs => .seq r (rcat rs)

/-- Alternation of a list of patterns, tried left to right. -/
def ralt : List RE → RE
  | [] => .eps
  | [r] => r
  | r :: rs => .alt r (ralt rs)

/-- A single case-insensitive literal character. -/
def chCI (c : Char) : RE := .cls (fun d => d.toLower == c.toLower)

/-- A case-insensitive literal string. -/
def litCI (s : String) : RE := rcat (s.data.map chCI)

/-- A single case-sensitive literal character. -/
def chCS (c : Char) : RE := .cls (fun d => d == c)

/-- A case-sensitive literal string. -/
def litCS (s : String) : RE := rcat (s.data.map chCS)

/-- A class matching any character except `c` (such as `[^:]`; note that
in Python such a class also matches a newline). -/
def clsNot (c : Char) : RE := .cls (fun d => d != c)

/-- The `.` of a pattern without `re.DOTALL`: anything but a newline. -/
def anyNoNl : RE := .cls (fun d => d != '\n')

/-- Greedy `?`. -/
def ropt (a : RE) : RE := .alt a .eps

/-- Greedy `+`. -/
def rplus (a : RE) : RE := .seq a (.star a)

/-- `{3,}`. -/
def rep3 (a : RE) : RE := .seq a (.seq a (rplus a))

/-- `{4,}`. -/
def rep4 (a : RE) : RE := .seq a (.seq a (.seq a (rplus a)))

/-- `\s*`. -/
def wsStar : RE := .star (.cls isWs)

/-- `\s+`. -/
def wsPlus : RE := rplus (.cls isWs)

/-- The apostrophe character, used inside several source patterns. -/
def apos : Char := Char.ofNat 39

/-- A case-insensitive literal with one apostrophe between its two
halves (for source literals such as the contraction in a pattern). -/
def litApos (pre post : String) : RE :=
  rcat (pre.data.map chCI ++ [chCS apos] ++ post.data.map chCI)

/-- True if any pattern in the list finds a match somewhere in the text
(the source loops over the list and returns at the first hit, which
matches existence). -/
def searchAny (ps : List RE) (text : List Char) : Bool :=
  ps.any (fun p => searchEx p text)

/-! ### Shared data model -/

/-- The two roles of the engine (the Python sources use the strings
`'AI'` and `'Student'`). -/
inductive Speaker where
  | AI : Speaker
  | Student : Speaker
deriving DecidableEq, Repr

/-- Symbolic confidence of a segment.  The Python code stores a float:
either a fixed constant (0.9 for marker-labelled segments, 0.95 for a
marker hit inside the classifier, 0.5 for blank text) or the value
`max(p, 1-p)` for `p = 1/(1+exp(-score))`.  Keeping the score symbolic
keeps the pipeline executable; `ConfVal.val` interprets it in `ℝ`. -/
inductive ConfVal where
  | const (q : ℚ) : ConfVal
  | sigmoidMax (score : ℚ) : ConfVal
deriving DecidableEq, Repr

/-- The logistic squash `1 / (1 + np.exp(-score))`. -/
noncomputable def sigmoid (s : ℚ) : ℝ :=
  1 / (1 + Real.exp (-(s : ℝ)))

open scoped Classical in
/-- Real value of a symbolic confidence.  For the sigmoid form this is
exactly the Python `ai_prob if ai_prob > 0.5 else 1 - ai_prob`. -/
noncomputable def ConfVal.val : ConfVal → ℝ
  | .const q => (q : ℝ)
  | .sigmoidMax s => if 1 / 2 < sigmoid s then sigmoid s else 1 - sigmoid s

/-- Readability oracle: models `textstat.flesch_kincaid_grade`; `none`
models the call raising an exception (which the sources catch). -/
abbrev RLevel := List Char → Option ℚ

/-! ## `Simple`: embedding of `transcript_analyzer_simple.py`
(class `SmartTranscriptAnalyzer`). -/

namespace Simple

/-- `self.student_markers` of `transcript_analyzer_simple.py`, in
declared order.  All uses apply `re.IGNORECASE`, so the `[A-Z]` range in
the last pattern matches letters of either case. -/
def student_markers : List RE :=
  [ rcat [.bol, wsStar, litCI "Student", .star (clsNot ':'), chCS ':', wsStar],
    rcat [.bol, wsStar, litCI "A:", wsStar],
    rcat [.bol, wsStar, litCI "Answer:", wsStar],
    rcat [.bol, wsStar, litCI "Me:", wsStar],
    rcat [.bol, wsStar, litCI "User:", wsStar],
    rcat [.bol, wsStar, litCI "Student_Entity_", .cls isAlphaC, chCS ':', wsStar] ]

/-- `self.ai_markers` of `transcript_analyzer_simple.py`, in declared
order. -/
def ai_markers : List RE :=
  [ rcat [.bol, wsStar, ralt [litCI "Prof", litCI "Professor", litCI "Dr"],
      ropt (chCS '.'), wsStar, .star (clsNot ':'), chCS ':', wsStar],
    rcat [.bol, wsStar,
      ralt [litCI "AI", litCI "Assistant", litCI "Claude", litCI "GPT", litCI "Bot"],
      chCS ':', wsStar],
    rcat [.bol, wsStar, rplus (.cls isWordC), wsPlus,
      ralt [litCI "Specialist", litCI "Assistant", litCI "Instructor"], chCS ':', wsStar],
    rcat [.bol, wsStar, litCI "Claud-ius:", wsStar],
    rcat [.bol, wsStar, litCI "Molecular Gastronomy Assistant:", wsStar],
    rcat [.bol, wsStar, litCI "Brain-Computer Interface Specialist:", wsStar] ]

/-- `self.ai_content_patterns`.  Note that in the source the literal
`r'\\[.*?\\]'` is a backslash followed by the character class
`[.*?\\]` (the `[` is not escaped), so it matches a backslash followed
by one of `.`, `*`, `?`, `\`; the embedding reproduces that. -/
def ai_content_patterns : List RE :=
  [ rcat [litApos "Let" "s", wsPlus, ralt [litCI "explore", litCI "examine", litCI "calculate"]],
    rcat [litCI "Your", wsPlus, ralt [litCI "task", litCI "mission"], chCS ':', wsStar],
    rcat [litCI "Step", wsPlus, rplus (.cls isDigitC), .cls (fun c => c == ':' || c == '.')],
    rcat [.bol, wsStar, chCS '*', chCS '*', rplus (clsNot '*'), chCS '*', chCS '*'],
    rcat [litCI "=== Page ", rplus (.cls isDigitC), litCI " ==="],
    rcat [litCI "Consider", wsPlus, ralt [litCI "the", litCI "this"]],
    rcat [litCI "Now", wsPlus, ralt [litApos "let" "s", litApos "we" "ll"]],
    rcat [ralt [litCI "Excellent", litCI "Perfect", litCI "Good"], chCS '!', wsStar,
      ralt [litCI "You", litCI "Your"]],
    rcat [chCS '\\', .cls (fun c => c == '.' || c == '*' || c == '?' || c == '\\')] ]

/-- `self.student_content_patterns`.  `^[a-z]` is searched with
`re.IGNORECASE`, so it actually matches a line starting with any ASCII
letter. -/
def student_content_patterns : List RE :=
  [ rcat [.bol, ralt [litCI "yes", litCI "no", litCI "ok", litCI "okay", litCI "sure",
      litCI "maybe"]],
    ralt [litCI "confused", rcat [litApos "don" "t", litCI " understand"], litCI "not sure"],
    rcat [chCS '?', .eol],
    ralt [litCI "can you", litCI "could you", litCI "what if", litCI "why", litCI "how"],
    rcat [.bol, ralt [litCI "wait", litCI "but", litCI "so", litCI "um", litCI "uh"]],
    rcat [.bol, .cls isAlphaC] ]

/-- The math/technical regex of `classify_speaker`
(`[\\$]\s*[a-zA-Z_]+|[=<>]+|\d+\s*[+\-*/]\s*\d+`, searched without
flags). -/
def math_re : RE :=
  ralt
    [ rcat [.cls (fun c => c == '\\' || c == '$'), wsStar,
        rplus (.cls (fun c => isAlphaC c || c == '_'))],
      rplus (.cls (fun c => c == '=' || c == '<' || c == '>')),
      rcat [rplus (.cls isDigitC), wsStar,
        .cls (fun c => c == '+' || c == '-' || c == '*' || c == '/'), wsStar,
        rplus (.cls isDigitC)] ]

/-- `r'\?'`, used by `re.findall` for the question count. -/
def question_re : RE := chCS '?'

/-- The word pattern `\b[a-zA-Z]+\b` of `count_words`. -/
def word_re : RE := rcat [.wb, rplus (.cls isAlphaC), .wb]

/-- The markup-removal patterns of `count_words`: `\*+`, `=+`, and the
backslash-plus-class pattern described at `ai_content_patterns`. -/
def star_run_re : RE := rplus (chCS '*')

def eq_run_re : RE := rplus (chCS '=')

def latexish_re : RE :=
  rcat [chCS '\\', .cls (fun c => c == '.' || c == '*' || c == '?' || c == '\\')]

/-- `count_words`: strip markup, then count `\b[a-zA-Z]+\b` matches. -/
def count_words (text : List Char) : Nat :=
  scanCount word_re (subAll latexish_re (subAll eq_run_re (subAll star_run_re text)))

/-- The additive content score of `classify_speaker` (everything between
the marker checks and the sigmoid), as an exact rational.  Each matching
AI content pattern adds 0.2 and each matching student pattern subtracts
0.25; the remaining summands follow the source line by line. -/
def content_score (rl : RLevel) (text : List Char) : ℚ :=
  let aiHits : ℚ := ((ai_content_patterns.filter (fun p => searchEx p text)).length : ℚ)
  let stHits : ℚ := ((student_content_patterns.filter (fun p => searchEx p text)).length : ℚ)
  let wc := count_words text
  let lenAdj : ℚ := if 100 < wc then 1 / 10 else if wc < 20 then -(1 / 10) else 0
  let rlAdj : ℚ :=
    match rl text with
    | some g => if 12 < g then 1 / 20 else if g < 8 then -(1 / 20) else 0
    | none => 0
  let mathAdj : ℚ := if searchEx math_re text then 1 / 10 else 0
  let qc := scanCount question_re text
  let qAdj : ℚ :=
    if 0 < qc ∧ 0 < wc ∧ (1 / 10 : ℚ) < (qc : ℚ) / (wc : ℚ) then -(1 / 10) else 0
  aiHits * (1 / 5) - stHits * (1 / 4) + lenAdj + rlAdj + mathAdj + qAdj

/-- The content-based tail of `classify_speaker`: squash the additive
score and decide the role.  The source compares `ai_prob > 0.5`; since
the sigmoid is strictly monotone this is the sign of the score
(`claim4_amended_sigmoid_decision` proves the equivalence), which keeps
the decision executable. -/
def classify_content (rl : RLevel) (text : List Char) : Speaker × ConfVal :=
  let s := content_score rl text
  (if 0 < s then Speaker.AI else Speaker.Student, ConfVal.sigmoidMax s)

/-- `classify_speaker`, parameterized by the content-based stage so that
independence from content scoring can be stated: blank text is `('AI',
0.5)`; then student markers, then AI markers (searched with
`re.IGNORECASE | re.MULTILINE`) return 0.95; otherwise the content
stage runs. -/
def classify_speaker_with (content : List Char → Speaker × ConfVal)
    (text : List Char) : Speaker × ConfVal :=
  if isBlankL text then (Speaker.AI, ConfVal.const (1 / 2))
  else if searchAny student_markers text then (Speaker.Student, ConfVal.const (19 / 20))
  else if searchAny ai_markers text then (Speaker.AI, ConfVal.const (19 / 20))
  else content text

/-- `classify_speaker` of `transcript_analyzer_simple.py`. -/
def classify_speaker (rl : RLevel) (text : List Char) : Speaker × ConfVal :=
  classify_speaker_with (classify_content rl) text

/-- One text segment (`TextSegment` dataclass of the simple variant). -/
structure TextSegment where
  text : List Char
  speaker : Speaker
  confidence : ConfVal
  word_count : Nat
  line_start : Nat
  line_end : Nat
deriving DecidableEq, Repr

/-- The marker scan at the top of the `segment_transcript` loop: try
the student patterns in order with `re.match`, then the AI patterns;
on a hit the cleaned line is the match-stripped, whitespace-stripped
remainder. -/
def firstMatch : List RE → List Char → Option (List Char)
  | [], _ => none
  | p :: ps, line =>
    match matchPref p none line with
    | some rest => some (stripL rest)
    | none => firstMatch ps line

def detect_marker (line : List Char) : Option (Speaker × List Char) :=
  match firstMatch student_markers line with
  | some clean => some (Speaker.Student, clean)
  | none =>
    match firstMatch ai_markers line with
    | some clean => some (Speaker.AI, clean)
    | none => none

/-- Loop state of `segment_transcript`: emitted segments, the lines of
the currently accumulating chunk, its speaker (from the marker that
opened it, if any) and its start line. -/
structure SegState where
  segs : List TextSegment
  chunk : List (List Char)
  speaker : Option Speaker
  startLine : Nat
deriving Repr

/-- The segment a flush of the open chunk would emit: a marker-opened
chunk keeps its speaker with confidence 0.9, an unmarked chunk is
classified. -/
def flushSeg (rl : RLevel) (endLine : Nat) (st : SegState) : TextSegment :=
  let text := joinNl st.chunk
  let sc : Speaker × ConfVal :=
    match st.speaker with
    | some sp => (sp, ConfVal.const (9 / 10))
    | none => classify_speaker rl text
  { text := text, speaker := sc.1, confidence := sc.2,
    word_count := count_words text, line_start := st.startLine, line_end := endLine }

/-- Flushing the open chunk at `endLine`; a chunk whose extracted word
count is 0 is dropped. -/
def flushSegs (rl : RLevel) (endLine : Nat) (st : SegState) : List TextSegment :=
  if st.chunk.isEmpty then st.segs
  else if 0 < count_words (joinNl st.chunk) then st.segs ++ [flushSeg rl endLine st]
  else st.segs

/-- One iteration of the `segment_transcript` loop on line `i`. -/
def segStep (rl : RLevel) (i : Nat) (line : List Char) (st : SegState) : SegState :=
  if isBlankL line then
    if st.chunk.isEmpty then st else { st with chunk := st.chunk ++ [line] }
  else
    match detect_marker line with
    | some rc =>
      if st.speaker ≠ some rc.1 then
        { segs := flushSegs rl (i - 1) st
          chunk := if rc.2.isEmpty then [] else [rc.2]
          speaker := some rc.1
          startLine := i }
      else { st with chunk := st.chunk ++ [line] }
    | none => { st with chunk := st.chunk ++ [line] }

def segLoop (rl : RLevel) : Nat → List (List Char) → SegState → SegState
  | _, [], st => st
  | i, l :: ls, st => segLoop rl (i + 1) ls (segStep rl i l st)

/-- The marker state machine of `segment_transcript`: run the loop over
the lines and flush the final chunk at the last line index. -/
def segsMain (rl : RLevel) (content : List Char) : List TextSegment :=
  flushSegs rl ((splitNl content).length - 1)
    (segLoop rl 0 (splitNl content)
      { segs := [], chunk := [], speaker := none, startLine := 0 })

/-- `segment_transcript` of `transcript_analyzer_simple.py`: the marker
state machine, and if no segment was produced the whole content is
analyzed as a single block. -/
def segment_transcript (rl : RLevel) (content : List Char) : List TextSegment :=
  let segs := segsMain rl content
  if segs.isEmpty then
    let sc := classify_speaker rl content
    let wc := count_words content
    if 0 < wc then
      [{ text := content, speaker := sc.1, confidence := sc.2, word_count := wc,
         line_start := 0, line_end := (splitNl content).length - 1 }]
    else []
  else segs

/-- Analysis result (`TranscriptAnalysis` dataclass).  The
`confidence_score` float of the dataclass is derived purely from the
segment sequence and is modelled by the function `confidence_score`
below (so that the record stays executable despite the real-valued
sigmoid confidences). -/
structure TranscriptAnalysis where
  filename : String
  segments : List TextSegment
  ai_words : Nat
  student_words : Nat
  total_words : Nat
  student_ratio : ℚ
  quality_flags : List String

/-- Real values of the segment confidences. -/
noncomputable def confVals (segs : List TextSegment) : List ℝ :=
  segs.map (fun s => s.confidence.val)

/-- `np.mean([seg.confidence for seg in segments]) if segments else 0.0`. -/
noncomputable def avgConf (segs : List TextSegment) : ℝ :=
  if segs.isEmpty then 0 else (confVals segs).sum / segs.length

/-- The `confidence_score` field of the analysis. -/
noncomputable def confidence_score (a : TranscriptAnalysis) : ℝ :=
  avgConf a.segments

/-- `sum(seg.word_count for seg in segments if seg.speaker == 'AI')`. -/
def aiWords (segs : List TextSegment) : Nat :=
  ((segs.filter fun s => s.speaker == Speaker.AI).map (fun s => s.word_count)).sum

def studentWords (segs : List TextSegment) : Nat :=
  ((segs.filter fun s => s.speaker == Speaker.Student).map (fun s => s.word_count)).sum

open scoped Classical in
/-- The statistics/flags block of `analyze_transcript` (its per-segment
reduction, §4.6 of the spec).  The low-confidence quality flag compares
a real-valued mean and is therefore stated classically; no claim forces
that branch. -/
noncomputable def aggregate (filename : String) (segs : List TextSegment) :
    TranscriptAnalysis :=
  let aiW := aiWords segs
  let stW := studentWords segs
  let tot := aiW + stW
  let ratio : ℚ := if 0 < tot then (stW : ℚ) / (tot : ℚ) else 0
  let flags : List String :=
    (if avgConf segs < 3 / 5 then ["Low confidence"] else []) ++
    (if tot < 100 then ["Very short"] else []) ++
    (if segs.length < 2 then ["Few segments"] else [])
  { filename := filename, segments := segs, ai_words := aiW, student_words := stW,
    total_words := tot, student_ratio := ratio, quality_flags := flags }

/-- `analyze_transcript` of `transcript_analyzer_simple.py`.  File
reading is external, so the input is the read outcome: `.error e`
models the `open`/`read` call raising `e`, `.ok content` a successful
read. -/
noncomputable def analyze_transcript (rl : RLevel) (filename : String)
    (input : Except String (List Char)) : TranscriptAnalysis :=
  match input with
  | .error e =>
    { filename := filename, segments := [], ai_words := 0, student_words := 0,
      total_words := 0, student_ratio := 0,
      quality_flags := ["Read error: " ++ e] }
  | .ok content =>
    if isBlankL content then
      { filename := filename, segments := [], ai_words := 0, student_words := 0,
        total_words := 0, student_ratio := 0, quality_flags := ["Empty file"] }
    else aggregate filename (segment_transcript rl content)

/-- The batch driver of `main`: one `analyze_transcript` call per file,
results collected in order. -/
noncomputable def analyze_batch (rl : RLevel)
    (files : List (String × Except String (List Char))) : List TranscriptAnalysis :=
  files.map (fun f => analyze_transcript rl f.1 f.2)

end Simple

/-! ## `V1`: embedding of `transcript_analyzer.py` (class
`TranscriptParser`). -/

namespace V1

/-- `self.ai_patterns`, in declared order (all searched with
`re.IGNORECASE | re.MULTILINE`).  The seventh source literal
`r'\\\[.*?\\\]'` here really is LaTeX display math: literal `\[`, a
lazy run of non-newline characters, literal `\]`; the eighth is a
literal backslash, `begin`, an opening brace, a lazy run, a closing
brace (braces are written via `Char.ofNat`). -/
def ai_patterns : List RE :=
  [ rcat [.bol, wsStar, chCS '*', rplus (clsNot '*'), chCS '*', wsStar, .eol],
    rcat [litCI "=== Page ", rplus (.cls isDigitC), litCI " ==="],
    rcat [.bol, wsStar, chCS '*', chCS '*', rplus (clsNot '*'), chCS '*', chCS '*'],
    rcat [.bol, wsStar, chCS '#', chCS '#', ropt (chCS '#'), wsPlus, chCS '*', chCS '*'],
    rcat [.bol, wsStar, litCI "Step", wsPlus, rplus (.cls isDigitC), chCS ':'],
    rcat [litCI "Your", wsPlus, ralt [litCI "task", litCI "response", litCI "turn"]],
    rcat [chCS '\\', chCS '[', .starL anyNoNl, chCS '\\', chCS ']'],
    rcat [chCS '\\', litCI "begin", chCS (Char.ofNat 123), .starL anyNoNl,
      chCS (Char.ofNat 125)],
    rcat [.bol, wsStar, rplus (.cls isDigitC), chCS '.', wsPlus, chCS '*', chCS '*'],
    litCI "Brain-Computer Interface Specialist",
    litCI "Neural Specialist",
    litCI "Quantum Computing Instructor" ]

/-- `self.student_patterns`, in declared order. -/
def student_patterns : List RE :=
  [ rcat [.bol, wsStar, litCI "A:", wsStar],
    rcat [.bol, wsStar, litCI "Student:", wsStar],
    rcat [.bol, wsStar, litCI "Student_Entity_", .cls isAlphaC, chCS ':', wsStar],
    rcat [.bol, wsStar, litCI "Student", .star (.cls isWordC), chCS ':', wsStar] ]

/-- `self.instructor_patterns`, in declared order.  Under
`re.IGNORECASE` the `[A-Z]`/`[a-z]+` ranges match either case. -/
def instructor_patterns : List RE :=
  [ rcat [.bol, wsStar, litCI "Prof.", wsPlus, rplus (.cls isWordC), chCS ':', wsStar],
    rcat [.bol, wsStar, rplus (.cls isWordC), wsPlus, litCI "Assistant:", wsStar],
    rcat [.bol, wsStar, litCI "Claud-ius:", wsStar],
    rcat [.bol, wsStar, .cls isAlphaC, rplus (.cls isAlphaC), wsPlus,
      litCI "Specialist:", wsStar] ]

/-- `self.noise_patterns`: searched case-sensitively and without
`re.MULTILINE` (no anchors occur). -/
def noise_patterns : List RE :=
  [ rep4 (.cls isUpperC),
    rep3 (.cls (fun c => c == '#' || c == '$' || c == '%' || c == '&' || c == '*')),
    rcat [.wb, rplus (.cls isUpperC),
      rplus (.cls (fun c => c == '#' || c == '$' || c == '%' || c == '&' || c == '*')),
      .star (.cls isUpperC), .wb] ]

/-- The mathematical-content regex of `calculate_ai_probability`
(`[\\$]\s*[a-zA-Z_]+\s*[\\$=]`, searched without flags). -/
def math_re : RE :=
  rcat [.cls (fun c => c == '\\' || c == '$'), wsStar,
    rplus (.cls (fun c => isAlphaC c || c == '_')), wsStar,
    .cls (fun c => c == '\\' || c == '$' || c == '=')]

/-- The instructional-language regex (`\b(calculate|derive|analyze|
consider|examine)\b`, searched with `re.IGNORECASE`). -/
def instr_re : RE :=
  rcat [.wb, ralt [litCI "calculate", litCI "derive", litCI "analyze",
    litCI "consider", litCI "examine"], .wb]

/-- Word pattern of `count_words`. -/
def word_re : RE := rcat [.wb, rplus (.cls isAlphaC), .wb]

/-- The markup-removal patterns of `count_words`: LaTeX display math,
LaTeX commands with a braced argument, `\*+`, `#+`. -/
def latex_display_re : RE :=
  rcat [chCS '\\', chCS '[', .starL anyNoNl, chCS '\\', chCS ']']

def latex_cmd_re : RE :=
  rcat [chCS '\\', rplus (.cls isAlphaC), chCS (Char.ofNat 123),
    .star (clsNot (Char.ofNat 125)), chCS (Char.ofNat 125)]

def star_run_re : RE := rplus (chCS '*')

def hash_run_re : RE := rplus (chCS '#')

/-- `count_words` of `transcript_analyzer.py`. -/
def count_words (text : List Char) : Nat :=
  scanCount word_re
    (subAll hash_run_re (subAll star_run_re (subAll latex_cmd_re
      (subAll latex_display_re text))))

/-- `calculate_ai_probability`: start at 0.5, add the pattern and
feature adjustments line by line, clamp into `[0,1]`. -/
def calculate_ai_probability (text : List Char) : ℚ :=
  let s1 : ℚ := 1 / 2 +
    ((ai_patterns.filter (fun p => searchEx p text)).length : ℚ) * (1 / 5)
  let s2 : ℚ := s1 +
    ((instructor_patterns.filter (fun p => searchEx p text)).length : ℚ) * (3 / 10)
  let s3 : ℚ := s2 -
    ((student_patterns.filter (fun p => searchEx p text)).length : ℚ) * (2 / 5)
  let wc := count_words text
  let s4 : ℚ := s3 +
    (if 100 < wc then 1 / 10 else if 50 < wc then 1 / 20
     else if wc < 10 then -(1 / 10) else 0)
  let s5 : ℚ := s4 + (if searchEx math_re text then 3 / 20 else 0)
  let s6 : ℚ := s5 + (if searchEx instr_re text then 1 / 10 else 0)
  let s7 : ℚ := s6 +
    ((noise_patterns.filter (fun p => searchEx p text)).length : ℚ) * (1 / 20)
  max 0 (min 1 s7)

/-- Segment record of the v1 variant.  Here the confidence really is a
rational: `abs(ai_prob - 0.5) * 2` with `ai_prob` the clamped additive
score — no sigmoid is involved. -/
structure TextSegment where
  text : List Char
  speaker : Speaker
  word_count : Nat
  confidence : ℚ
  line_start : Nat
  line_end : Nat
deriving DecidableEq, Repr

/-- The classification applied to a flushed chunk that has no marker
speaker: role by `ai_prob > 0.5`, confidence `abs(ai_prob - 0.5) * 2`. -/
def classify_unmarked (text : List Char) : Speaker × ℚ :=
  let p := calculate_ai_probability text
  (if 1 / 2 < p then Speaker.AI else Speaker.Student, |p - 1 / 2| * 2)

/-- Marker detection of `segment_transcript`: `re.match` against the
joined student alternation, then (elif) the joined instructor
alternation. -/
def detect_marker (line : List Char) : Option Speaker :=
  if (student_patterns.any (fun p => (matchPref p none line).isSome)) then
    some Speaker.Student
  else if (instructor_patterns.any (fun p => (matchPref p none line).isSome)) then
    some Speaker.AI
  else none

/-- The clean-text loop: re-substitute pattern by pattern, stopping at
the first pattern whose stripped substitution differs from the stripped
line; the last substitution computed is kept if none differs. -/
def cleanLoop (pats : List RE) (line : List Char) : List Char :=
  match pats with
  | [] => line
  | [p] => stripL (subPref p line)
  | p :: ps =>
    let c := stripL (subPref p line)
    if c ≠ stripL line then c else cleanLoop ps line

def clean_text (sp : Speaker) (line : List Char) : List Char :=
  match sp with
  | Speaker.Student => cleanLoop student_patterns line
  | Speaker.AI => cleanLoop instructor_patterns line

structure SegState where
  segs : List TextSegment
  chunk : List (List Char)
  speaker : Option Speaker
  startLine : Nat
deriving DecidableEq, Repr

/-- Flushing in v1: compute the text and word count first, drop the
chunk if the count is zero, otherwise label (0.9) or classify. -/
def flushSegs (endLine : Nat) (st : SegState) : List TextSegment :=
  if st.chunk.isEmpty then st.segs
  else
    let text := joinNl st.chunk
    let wc := count_words text
    if 0 < wc then
      let sc : Speaker × ℚ :=
        match st.speaker with
        | some sp => (sp, 9 / 10)
        | none => classify_unmarked text
      st.segs ++ [{ text := text, speaker := sc.1, word_count := wc, confidence := sc.2,
                    line_start := st.startLine, line_end := endLine }]
    else st.segs

def segStep (i : Nat) (line : List Char) (st : SegState) : SegState :=
  if isBlankL line then
    if st.chunk.isEmpty then st else { st with chunk := st.chunk ++ [line] }
  else
    match detect_marker line with
    | some r =>
      if st.speaker ≠ some r then
        let clean := clean_text r line
        { segs := flushSegs (i - 1) st
          chunk := if clean.isEmpty then [] else [clean]
          speaker := some r
          startLine := i }
      else { st with chunk := st.chunk ++ [line] }
    | none => { st with chunk := st.chunk ++ [line] }

def segLoop : Nat → List (List Char) → SegState → SegState
  | _, [], st => st
  | i, l :: ls, st => segLoop (i + 1) ls (segStep i l st)

/-- `segment_transcript` of `transcript_analyzer.py` (no fallback
block). -/
def segment_transcript (content : List Char) : List TextSegment :=
  let lines := splitNl content
  let st := segLoop 0 lines { segs := [], chunk := [], speaker := none, startLine := 0 }
  flushSegs (lines.length - 1) st

def aiWords (segs : List TextSegment) : Nat :=
  ((segs.filter fun s => s.speaker == Speaker.AI).map (fun s => s.word_count)).sum

def studentWords (segs : List TextSegment) : Nat :=
  ((segs.filter fun s => s.speaker == Speaker.Student).map (fun s => s.word_count)).sum

/-- `TranscriptAnalysis` dataclass of the v1 variant (no quality flags;
both ratios are stored). -/
structure TranscriptAnalysis where
  filename : String
  segments : List TextSegment
  ai_words : Nat
  student_words : Nat
  total_words : Nat
  student_ratio : ℚ
  ai_ratio : ℚ
deriving DecidableEq, Repr

/-- `analyze_transcript` of `transcript_analyzer.py`.  This variant
reads the file without a local handler (a read failure propagates to
the caller's loop), so the model takes the successfully read content. -/
def analyze_transcript (filename : String) (content : List Char) : TranscriptAnalysis :=
  let segs := segment_transcript content
  let aiW := aiWords segs
  let stW := studentWords segs
  let tot := aiW + stW
  { filename := filename, segments := segs, ai_words := aiW, student_words := stW,
    total_words := tot
    student_ratio := if 0 < tot then (stW : ℚ) / (tot : ℚ) else 0
    ai_ratio := if 0 < tot then (aiW : ℚ) / (tot : ℚ) else 0 }

end V1

/-! ## `V2`: embedding of `transcript_analyzer_v2.py` (class
`AdvancedTranscriptAnalyzer`). -/

namespace V2

/-- `self.explicit_student_markers`, in declared order. -/
def explicit_student_markers : List RE :=
  [ rcat [.bol, wsStar, litCI "Student",
      ropt (.seq wsStar (.star (.cls isWordC))), chCS ':', wsStar],
    rcat [.bol, wsStar, litCI "A:", wsStar],
    rcat [.bol, wsStar, litCI "Answer:", wsStar],
    rcat [.bol, wsStar, litCI "Response:", wsStar],
    rcat [.bol, wsStar, litCI "Me:", wsStar],
    rcat [.bol, wsStar, litCI "User:", wsStar],
    rcat [.bol, wsStar, .cls isAlphaC, .star (.cls isAlphaC), ropt (chCS '_'),
      ralt [litCI "Student", litCI "User", litCI "Entity"], ropt (chCS '_'),
      ropt (.cls isAlphaC), chCS ':', wsStar] ]

/-- `self.explicit_ai_markers`, in declared order. -/
def explicit_ai_markers : List RE :=
  [ rcat [.bol, wsStar,
      ralt [litCI "AI", litCI "Assistant", litCI "Claude", litCI "GPT", litCI "Bot"],
      chCS ':', wsStar],
    rcat [.bol, wsStar, ralt [litCI "Prof", litCI "Professor", litCI "Dr", litCI "Teacher"],
      ropt (chCS '.'), wsStar, .star (.cls isWordC), chCS ':', wsStar],
    rcat [.bol, wsStar, rplus (.cls isWordC), wsPlus,
      ralt [litCI "Specialist", litCI "Assistant", litCI "Instructor", litCI "Teacher"],
      chCS ':', wsStar],
    rcat [.bol, wsStar, ralt [litCI "Claud-ius", litCI "DeepSeek", litCI "ChatGPT"],
      chCS ':', wsStar],
    rcat [.bol, wsStar, chCS '*', .star (clsNot '*'), chCS '*', chCS ':', wsStar] ]

/-- `self.ai_indicators`.  As in the simple variant, the source literal
`r'\\[.*?\\]'` is a backslash followed by the class `[.*?\\]`. -/
def ai_indicators : List RE :=
  [ rcat [litApos "Let" "s", wsPlus,
      ralt [litCI "explore", litCI "examine", litCI "calculate", litCI "derive",
        litCI "analyze"]],
    rcat [ropt (.seq (litCI "Your") wsPlus),
      ralt [litCI "task", litCI "mission", litCI "assignment", litCI "challenge"],
      ropt (.seq wsPlus (litCI "is")), chCS ':', wsStar],
    rcat [litCI "Step", wsPlus, rplus (.cls isDigitC), .cls (fun c => c == ':' || c == '.')],
    rcat [.bol, wsStar, chCS '*', chCS '*', rplus (clsNot '*'), chCS '*', chCS '*'],
    rcat [litCI "=== Page ", rplus (.cls isDigitC), litCI " ==="],
    rcat [chCS '\\', .cls (fun c => c == '.' || c == '*' || c == '?' || c == '\\')],
    rcat [litCI "Consider", wsPlus, ralt [litCI "the", litCI "this", litCI "a"]],
    rcat [litCI "Now", wsPlus,
      ralt [litApos "let" "s", litApos "we" "ll", litApos "you" "ll"]],
    rcat [ralt [litCI "Excellent", litCI "Perfect", litCI "Good", litCI "Great"],
      chCS '!', wsStar, ralt [litCI "You", litCI "Your"]] ]

/-- `self.student_indicators`. -/
def student_indicators : List RE :=
  [ rcat [.bol, ralt [litCI "yes", litCI "no", litCI "ok", litCI "okay", litCI "sure",
      litCI "maybe", litCI "i think", litApos "i don" "t"]],
    rcat [.wb, ralt [litCI "confused", rcat [litApos "don" "t", litCI " understand"],
      litCI "not sure", litCI "help"], .wb],
    rcat [chCS '?', .eol],
    rcat [.wb, ralt [litCI "can you", litCI "could you", litCI "what if", litCI "why",
      litCI "how"], .wb],
    rcat [.bol, ralt [litCI "wait", litCI "but", litCI "so", litCI "um", litCI "uh",
      litCI "actually"]] ]

/-- The sentence-terminal pattern `[.!?]+` of `extract_features`. -/
def sent_re : RE := rplus (.cls (fun c => c == '.' || c == '!' || c == '?'))

/-- Same math regex literal as the simple variant. -/
def math_re : RE := Simple.math_re

/-- `\b(?:function|def|class|import|return)\b|[{}()[\]];`, searched
case-sensitively. -/
def code_re : RE :=
  .alt
    (rcat [.wb, ralt [litCS "function", litCS "def", litCS "class", litCS "import",
      litCS "return"], .wb])
    (rcat [.cls (fun c => c == Char.ofNat 123 || c == Char.ofNat 125 || c == '(' ||
      c == ')' || c == '[' || c == ']'), chCS ';'])

/-- Formal-connective words. -/
def formal_re : RE :=
  rcat [.wb, ralt [litCI "furthermore", litCI "moreover", litCI "however",
    litCI "therefore", litCI "consequently", litCI "thus", litCI "hence"], .wb]

/-- Instructional words. -/
def instr_re : RE :=
  rcat [.wb, ralt [litCI "calculate", litCI "derive", litCI "analyze", litCI "examine",
    litCI "consider", litCI "determine"], .wb]

/-- Uncertainty words and phrases. -/
def uncertain_re : RE :=
  rcat [.wb, ralt [litCI "maybe", litCI "perhaps", litCI "i think", litCI "not sure",
    litCI "confused", rcat [litApos "don" "t", litCI " understand"]], .wb]

/-- Casual words. -/
def casual_re : RE :=
  rcat [.wb, ralt [litCI "yeah", litCI "ok", litCI "wow", litCI "cool", litCI "awesome",
    litCI "wait", litCI "um", litCI "uh"], .wb]

/-- The feature fields of `extract_features` consumed downstream by
`calculate_speaker_probability` and `_create_segment` (the remaining
entries of the Python feature dict — character counts, punctuation
counts, capitalization ratio, bullet/step patterns, reading ease — are
written into the dict but never read by any embedded consumer, and are
omitted). -/
structure Features where
  word_count : Nat
  sentence_count : Nat
  question_count : Nat
  question_ratio : ℚ
  has_math : Bool
  has_code : Bool
  formality_score : ℚ
  instruction_score : ℚ
  uncertainty_score : ℚ
  casual_score : ℚ
  flesch_kincaid_grade : ℚ
deriving DecidableEq, Repr

/-- `extract_features`: `none` models the empty dict returned for blank
text.  `rl` models `textstat.flesch_kincaid_grade`; when it raises the
source substitutes the default grade 8. -/
def extract_features (rl : RLevel) (text : List Char) : Option Features :=
  if isBlankL text then none
  else
    let wc := splitWsCount text
    let sc := max 1 (scanCount sent_re text)
    let qc := scanCount (chCS '?') text
    some
      { word_count := wc
        sentence_count := sc
        question_count := qc
        question_ratio := (qc : ℚ) / (max 1 sc : ℚ)
        has_math := searchEx math_re text
        has_code := searchEx code_re text
        formality_score := (scanCount formal_re text : ℚ) / (max 1 wc : ℚ)
        instruction_score := (scanCount instr_re text : ℚ) / (max 1 wc : ℚ)
        uncertainty_score := (scanCount uncertain_re text : ℚ) / (max 1 wc : ℚ)
        casual_score := (scanCount casual_re text : ℚ) / (max 1 wc : ℚ)
        flesch_kincaid_grade := (rl text).getD 8 }

/-- The additive score of the content-based part of
`calculate_speaker_probability` (each matching AI indicator adds 0.15,
each student indicator subtracts 0.20, then the feature adjustments;
an absent feature dict skips every feature adjustment, mirroring the
`'key' in features` guards). -/
def content_score (text : List Char) (f : Option Features) : ℚ :=
  let base : ℚ :=
    ((ai_indicators.filter (fun p => searchEx p text)).length : ℚ) * (3 / 20) -
    ((student_indicators.filter (fun p => searchEx p text)).length : ℚ) * (1 / 5)
  let featAdj : ℚ :=
    match f with
    | none => 0
    | some ft =>
      (if 100 < ft.word_count then 1 / 10
       else if ft.word_count < 20 then -(1 / 10) else 0)
      + (if 1 / 50 < ft.instruction_score then 3 / 20 else 0)
      - (if 1 / 50 < ft.uncertainty_score then 3 / 20 else 0)
      - (if 1 / 50 < ft.casual_score then 3 / 20 else 0)
      + (if ft.has_math then 1 / 10 else 0)
      + (if 1 / 100 < ft.formality_score then 1 / 10 else 0)
      - (if 3 / 10 < ft.question_ratio then 1 / 10 else 0)
      + (if 12 < ft.flesch_kincaid_grade then 1 / 20
         else if ft.flesch_kincaid_grade < 8 then -(1 / 20) else 0)
  base + featAdj

/-- The content-based tail of `calculate_speaker_probability`: squash
and decide, as in the simple variant. -/
def content_probability (text : List Char) (f : Option Features) : Speaker × ConfVal :=
  let s := content_score text f
  (if 0 < s then Speaker.AI else Speaker.Student, ConfVal.sigmoidMax s)

/-- `calculate_speaker_probability`, parameterized by the content stage.
Note the marker order here is AI first, then student — the opposite of
both the simple variant's classifier and this variant's segmenter. -/
def calculate_speaker_probability_with
    (content : List Char → Option Features → Speaker × ConfVal)
    (text : List Char) (f : Option Features) : Speaker × ConfVal :=
  if searchAny explicit_ai_markers text then (Speaker.AI, ConfVal.const (19 / 20))
  else if searchAny explicit_student_markers text then
    (Speaker.Student, ConfVal.const (19 / 20))
  else content text f

/-- `calculate_speaker_probability` of `transcript_analyzer_v2.py`. -/
def calculate_speaker_probability (text : List Char) (f : Option Features) :
    Speaker × ConfVal :=
  calculate_speaker_probability_with content_probability text f

/-- `TextSegment` dataclass of the v2 variant. -/
structure TextSegment where
  text : List Char
  speaker_prediction : Speaker
  confidence : ConfVal
  word_count : Nat
  sentence_count : Nat
  avg_sentence_length : ℚ
  reading_level : ℚ
  technical_score : ℚ
  question_count : Nat
  has_math : Bool
  has_code : Bool
  formality_score : ℚ
  start_line : Nat
  end_line : Nat
  features : Option Features
deriving DecidableEq, Repr

/-- The field extraction shared by `_create_segment` and
`_segment_by_content` (the `features.get(key, default)` calls). -/
def build_segment (text : List Char) (sc : Speaker × ConfVal) (f : Option Features)
    (startLine endLine : Nat) : TextSegment :=
  let wc := match f with | some ft => ft.word_count | none => 0
  let sentc := match f with | some ft => ft.sentence_count | none => 1
  let hm := match f with | some ft => ft.has_math | none => false
  let hc := match f with | some ft => ft.has_code | none => false
  { text := text
    speaker_prediction := sc.1
    confidence := sc.2
    word_count := wc
    sentence_count := sentc
    avg_sentence_length := (wc : ℚ) / (max 1 sentc : ℚ)
    reading_level := match f with | some ft => ft.flesch_kincaid_grade | none => 8
    technical_score := (if hm then (1 : ℚ) else 0) + (if hc then (1 : ℚ) else 0)
    question_count := match f with | some ft => ft.question_count | none => 0
    has_math := hm
    has_code := hc
    formality_score := match f with | some ft => ft.formality_score | none => 0
    start_line := startLine
    end_line := endLine
    features := f }

/-- `_create_segment`: label with the marker speaker at confidence 0.9,
or classify. -/
def create_segment (rl : RLevel) (chunk : List (List Char)) (speaker : Option Speaker)
    (startLine endLine : Nat) : TextSegment :=
  let text := joinNl chunk
  let f := extract_features rl text
  let sc : Speaker × ConfVal :=
    match speaker with
    | some sp => (sp, ConfVal.const (9 / 10))
    | none => calculate_speaker_probability text f
  build_segment text sc f startLine endLine

/-- Marker detection of `_segment_by_markers` (student patterns first,
as in the segmentation loops of the other variants). -/
def detect_marker (line : List Char) : Option (Speaker × List Char) :=
  match Simple.firstMatch explicit_student_markers line with
  | some clean => some (Speaker.Student, clean)
  | none =>
    match Simple.firstMatch explicit_ai_markers line with
    | some clean => some (Speaker.AI, clean)
    | none => none

structure SegState where
  segs : List TextSegment
  chunk : List (List Char)
  speaker : Option Speaker
  startLine : Nat

/-- Flushing in `_segment_by_markers`: unconditional — v2 has no
word-count guard on emission. -/
def flushSegs (rl : RLevel) (endLine : Nat) (st : SegState) : List TextSegment :=
  if st.chunk.isEmpty then st.segs
  else st.segs ++ [create_segment rl st.chunk st.speaker st.startLine endLine]

def segStep (rl : RLevel) (i : Nat) (line : List Char) (st : SegState) : SegState :=
  if isBlankL line then
    if st.chunk.isEmpty then st else { st with chunk := st.chunk ++ [line] }
  else
    match detect_marker line with
    | some rc =>
      if st.speaker ≠ some rc.1 then
        { segs := flushSegs rl (i - 1) st
          chunk := if rc.2.isEmpty then [] else [rc.2]
          speaker := some rc.1
          startLine := i }
      else { st with chunk := st.chunk ++ [line] }
    | none => { st with chunk := st.chunk ++ [line] }

def segLoop (rl : RLevel) : Nat → List (List Char) → SegState → SegState
  | _, [], st => st
  | i, l :: ls, st => segLoop rl (i + 1) ls (segStep rl i l st)

/-- `_segment_by_markers`. -/
def segment_by_markers (rl : RLevel) (lines : List (List Char)) : List TextSegment :=
  let st := segLoop rl 0 lines { segs := [], chunk := [], speaker := none, startLine := 0 }
  flushSegs rl (lines.length - 1) st

/-- The chunking loop of `_segment_by_content`: non-blank lines
accumulate; at a blank line the accumulated chunk is emitted only when
it has more than two lines (otherwise it is kept and merges into the
following paragraph); the trailing chunk is emitted regardless of
size. -/
def chunkLoop : List (List Char) → List (List Char) → List (List Char)
  | [], cur => if cur.isEmpty then [] else [joinNl cur]
  | l :: ls, cur =>
    if isBlankL l then
      if ¬cur.isEmpty ∧ 2 < cur.length then joinNl cur :: chunkLoop ls []
      else chunkLoop ls cur
    else chunkLoop ls (cur ++ [l])

/-- `_segment_by_content`: classify each chunk independently through
`calculate_speaker_probability`; the recorded line span is the
approximation `i*10 .. (i+1)*10` from the source. -/
def segment_by_content (rl : RLevel) (lines : List (List Char)) : List TextSegment :=
  (chunkLoop lines []).enum.map (fun ic =>
    let f := extract_features rl ic.2
    build_segment ic.2 (calculate_speaker_probability ic.2 f) f (ic.1 * 10)
      ((ic.1 + 1) * 10))

/-- `smart_segment_transcript`: the marker pass, falling back to
content-based chunking when it produces no segments. -/
def smart_segment_transcript (rl : RLevel) (content : List Char) : List TextSegment :=
  let lines := splitNl content
  let explicit := segment_by_markers rl lines
  if explicit.isEmpty then segment_by_content rl lines else explicit

/-- `TranscriptAnalysis` dataclass of the v2 variant; as for the simple
variant the real-valued `confidence_score` is modelled by a derived
function. -/
structure TranscriptAnalysis where
  filename : String
  segments : List TextSegment
  ai_words : Nat
  student_words : Nat
  total_words : Nat
  student_ratio : ℚ
  parsing_method : String
  quality_flags : List String

noncomputable def confVals (segs : List TextSegment) : List ℝ :=
  segs.map (fun s => s.confidence.val)

noncomputable def avgConf (segs : List TextSegment) : ℝ :=
  if segs.isEmpty then 0 else (confVals segs).sum / segs.length

noncomputable def confidence_score (a : TranscriptAnalysis) : ℝ :=
  avgConf a.segments

/-- The parsing-method probe of `analyze_transcript`
(`^\s*(?:Student|AI|Prof|Assistant):`, `re.IGNORECASE | re.MULTILINE`). -/
def pm_re : RE :=
  rcat [.bol, wsStar,
    ralt [litCI "Student", litCI "AI", litCI "Prof", litCI "Assistant"], chCS ':']

def aiWords (segs : List TextSegment) : Nat :=
  ((segs.filter fun s => s.speaker_prediction == Speaker.AI).map
    (fun s => s.word_count)).sum

def studentWords (segs : List TextSegment) : Nat :=
  ((segs.filter fun s => s.speaker_prediction == Speaker.Student).map
    (fun s => s.word_count)).sum

open scoped Classical in
/-- The statistics/flags/method block of `analyze_transcript` of the v2
variant. -/
noncomputable def aggregate (filename : String) (segs : List TextSegment) :
    TranscriptAnalysis :=
  let aiW := aiWords segs
  let stW := studentWords segs
  let tot := aiW + stW
  let ratio : ℚ := if 0 < tot then (stW : ℚ) / (tot : ℚ) else 0
  let flags : List String :=
    (if avgConf segs < 3 / 5 then ["Low confidence predictions"] else []) ++
    (if tot < 100 then ["Very short transcript"] else []) ++
    (if segs.length < 3 then ["Few speaker segments detected"] else [])
  let method : String :=
    if segs.any (fun s => searchEx pm_re s.text) then "explicit_markers"
    else "content_analysis"
  { filename := filename, segments := segs, ai_words := aiW, student_words := stW,
    total_words := tot, student_ratio := ratio, parsing_method := method,
    quality_flags := flags }

/-- `analyze_transcript` of `transcript_analyzer_v2.py` (file reading
modelled as in the simple variant). -/
noncomputable def analyze_transcript (rl : RLevel) (filename : String)
    (input : Except String (List Char)) : TranscriptAnalysis :=
  match input with
  | .error e =>
    { filename := filename, segments := [], ai_words := 0, student_words := 0,
      total_words := 0, student_ratio := 0, parsing_method := "error",
      quality_flags := ["Read error: " ++ e] }
  | .ok content =>
    if isBlankL content then
      { filename := filename, segments := [], ai_words := 0, student_words := 0,
        total_words := 0, student_ratio := 0, parsing_method := "empty",
        quality_flags := ["Empty file"] }
    else aggregate filename (smart_segment_transcript rl content)

end V2

/-! ## Lemmas about the logistic squash and symbolic confidences -/

lemma sigmoid_pos (s : ℚ) : 0 < sigmoid s := by
  unfold sigmoid
  have h : (0 : ℝ) < 1 + Real.exp (-(s : ℝ)) := by positivity
  positivity

lemma sigmoid_lt_one (s : ℚ) : sigmoid s < 1 := by
  unfold sigmoid
  have hE : (0 : ℝ) < Real.exp (-(s : ℝ)) := Real.exp_pos _
  have h : (0 : ℝ) < 1 + Real.exp (-(s : ℝ)) := by linarith
  rw [div_lt_one h]
  linarith

lemma half_lt_sigmoid_iff (s : ℚ) : 1 / 2 < sigmoid s ↔ 0 < s := by
  unfold sigmoid
  have hE : (0 : ℝ) < Real.exp (-(s : ℝ)) := Real.exp_pos _
  have h : (0 : ℝ) < 1 + Real.exp (-(s : ℝ)) := by linarith
  rw [div_lt_div_iff (by norm_num) h]
  constructor
  · intro hlt
    have hexp : Real.exp (-(s : ℝ)) < 1 := by linarith
    rw [show (1 : ℝ) = Real.exp 0 by simp] at hexp
    have := Real.exp_lt_exp.mp hexp
    have hs : (0 : ℝ) < (s : ℝ) := by linarith
    exact_mod_cast hs
  · intro hs
    have hs' : (0 : ℝ) < (s : ℝ) := by exact_mod_cast hs
    have hexp : Real.exp (-(s : ℝ)) < Real.exp 0 := Real.exp_lt_exp.mpr (by linarith)
    rw [Real.exp_zero] at hexp
    linarith

lemma ConfVal.val_const (q : ℚ) : (ConfVal.const q).val = (q : ℝ) := rfl

lemma ConfVal.val_sigmoidMax (s : ℚ) :
    (ConfVal.sigmoidMax s).val = max (sigmoid s) (1 - sigmoid s) := by
  show (if 1 / 2 < sigmoid s then sigmoid s else 1 - sigmoid s) = _
  split
  · next h => exact (max_eq_left (by linarith)).symm
  · next h =>
    push_neg at h
    exact (max_eq_right (by linarith)).symm

lemma ConfVal.sigmoidMax_mem_Ico (s : ℚ) :
    1 / 2 ≤ (ConfVal.sigmoidMax s).val ∧ (ConfVal.sigmoidMax s).val < 1 := by
  rw [ConfVal.val_sigmoidMax]
  have h0 := sigmoid_pos s
  have h1 := sigmoid_lt_one s
  constructor
  · rcases le_total (sigmoid s) (1 / 2) with h | h
    · exact le_max_of_le_right (by linarith)
    · exact le_max_of_le_left h
  · exact max_lt h1 (by linarith)

lemma half_le_sum_div_length {l : List ℝ} (h : ∀ x ∈ l, 1 / 2 ≤ x) (hne : l ≠ []) :
    1 / 2 ≤ l.sum / l.length := by
  have hlen : 0 < (l.length : ℝ) := by
    have : 0 < l.length := List.length_pos.mpr hne
    exact_mod_cast this
  have hsum : (l.length : ℝ) * (1 / 2) ≤ l.sum := by
    clear hne hlen
    induction l with
    | nil => simp
    | cons a t ih =>
      have ha : 1 / 2 ≤ a := h a (List.mem_cons_self a t)
      have ht := ih (fun x hx => h x (List.mem_cons_of_mem a hx))
      simp only [List.length_cons, List.sum_cons]
      push_cast
      linarith
  rw [le_div_iff hlen]
  linarith [hsum]

/-! ## Claim theorems -/

/-- A readability oracle whose every call raises (the defaults are then
used); the simplest concrete instantiation for witnesses. -/
def rlNone : RLevel := fun _ => none

/-- On a successful, non-blank read the simple analyzer is the
aggregator applied to the segmenter's output. -/
lemma simple_analyze_ok_eq (rl : RLevel) (fn : String) (content : List Char)
    (hb : isBlankL content = false) :
    Simple.analyze_transcript rl fn (.ok content) =
      Simple.aggregate fn (Simple.segment_transcript rl content) := by
  simp only [Simple.analyze_transcript]
  rw [if_neg (by simp [hb])]

lemma simple_aggregate_segments (fn : String) (segs : List Simple.TextSegment) :
    (Simple.aggregate fn segs).segments = segs := rfl

lemma simple_aggregate_ratio (fn : String) (segs : List Simple.TextSegment) :
    (Simple.aggregate fn segs).student_ratio =
      if 0 < Simple.aiWords segs + Simple.studentWords segs then
        (Simple.studentWords segs : ℚ) /
          ((Simple.aiWords segs + Simple.studentWords segs : ℕ) : ℚ)
      else 0 := rfl

lemma simple_aggregate_total (fn : String) (segs : List Simple.TextSegment) :
    (Simple.aggregate fn segs).total_words =
      Simple.aiWords segs + Simple.studentWords segs := rfl

/-- The invariant of the simple aggregator, for any segment list. -/
lemma simple_aggregate_invariants (fn : String) (segs : List Simple.TextSegment) :
    (Simple.aggregate fn segs).ai_words + (Simple.aggregate fn segs).student_words =
      (Simple.aggregate fn segs).total_words ∧
    0 ≤ (Simple.aggregate fn segs).student_ratio ∧
    (Simple.aggregate fn segs).student_ratio ≤ 1 ∧
    (0 < (Simple.aggregate fn segs).total_words →
      (Simple.aggregate fn segs).student_ratio =
        ((Simple.aggregate fn segs).student_words : ℚ) /
          ((Simple.aggregate fn segs).total_words : ℚ)) ∧
    ((Simple.aggregate fn segs).total_words = 0 →
      (Simple.aggregate fn segs).student_ratio = 0) := by
  have htot : (Simple.aggregate fn segs).total_words =
      Simple.aiWords segs + Simple.studentWords segs := rfl
  have hst : (Simple.aggregate fn segs).student_words = Simple.studentWords segs := rfl
  have hai : (Simple.aggregate fn segs).ai_words = Simple.aiWords segs := rfl
  have hr : (Simple.aggregate fn segs).student_ratio =
      if 0 < Simple.aiWords segs + Simple.studentWords segs then
        (Simple.studentWords segs : ℚ) /
          ((Simple.aiWords segs + Simple.studentWords segs : ℕ) : ℚ)
      else 0 := rfl
  refine ⟨rfl, ?_, ?_, ?_, ?_⟩
  · rw [hr]
    split
    · next h => positivity
    · exact le_refl _
  · rw [hr]
    split
    · next h =>
      rw [div_le_one (by exact_mod_cast h)]
      exact_mod_cast Nat.le_add_left (Simple.studentWords segs) (Simple.aiWords segs)
    · exact zero_le_one
  · intro h
    rw [htot] at h
    rw [hr, hst, htot, if_pos h]
  · intro h
    rw [htot] at h
    rw [hr, if_neg (by omega)]

/-- The same invariant for the v1 aggregator. -/
lemma v1_aggregate_invariants (fn : String) (content : List Char) :
    (V1.analyze_transcript fn content).ai_words +
        (V1.analyze_transcript fn content).student_words =
      (V1.analyze_transcript fn content).total_words ∧
    0 ≤ (V1.analyze_transcript fn content).student_ratio ∧
    (V1.analyze_transcript fn content).student_ratio ≤ 1 ∧
    (0 < (V1.analyze_transcript fn content).total_words →
      (V1.analyze_transcript fn content).student_ratio =
        ((V1.analyze_transcript fn content).student_words : ℚ) /
          ((V1.analyze_transcript fn content).total_words : ℚ)) ∧
    ((V1.analyze_transcript fn content).total_words = 0 →
      (V1.analyze_transcript fn content).student_ratio = 0) := by
  have hr : (V1.analyze_transcript fn content).student_ratio =
      if 0 < V1.aiWords (V1.segment_transcript content) +
          V1.studentWords (V1.segment_transcript content) then
        (V1.studentWords (V1.segment_transcript content) : ℚ) /
          ((V1.aiWords (V1.segment_transcript content) +
            V1.studentWords (V1.segment_transcript content) : ℕ) : ℚ)
      else 0 := rfl
  have htot : (V1.analyze_transcript fn content).total_words =
      V1.aiWords (V1.segment_transcript content) +
        V1.studentWords (V1.segment_transcript content) := rfl
  have hst : (V1.analyze_transcript fn content).student_words =
      V1.studentWords (V1.segment_transcript content) := rfl
  refine ⟨rfl, ?_, ?_, ?_, ?_⟩
  · rw [hr]
    split
    · next h => positivity
    · exact le_refl _
  · rw [hr]
    split
    · next h =>
      rw [div_le_one (by exact_mod_cast h)]
      exact_mod_cast Nat.le_add_left _ _
    · exact zero_le_one
  · intro h
    rw [htot] at h
    rw [hr, hst, htot, if_pos h]
  · intro h
    rw [htot] at h
    rw [hr, if_neg (by omega)]

/-- Claim C1: for every analysis returned by analyze (simple variant on
any read outcome, and the v1 variant), `ai_words + student_words =
total_words`, `student_ratio` lies in `[0, 1]`, and `student_ratio`
equals `student_words / total_words` when `total_words > 0` and `0`
when `total_words = 0`. -/
theorem claim1_aggregate_invariants :
    (∀ (rl : RLevel) (fn : String) (input : Except String (List Char)),
      (Simple.analyze_transcript rl fn input).ai_words +
          (Simple.analyze_transcript rl fn input).student_words =
        (Simple.analyze_transcript rl fn input).total_words ∧
      0 ≤ (Simple.analyze_transcript rl fn input).student_ratio ∧
      (Simple.analyze_transcript rl fn input).student_ratio ≤ 1 ∧
      (0 < (Simple.analyze_transcript rl fn input).total_words →
        (Simple.analyze_transcript rl fn input).student_ratio =
          ((Simple.analyze_transcript rl fn input).student_words : ℚ) /
            ((Simple.analyze_transcript rl fn input).total_words : ℚ)) ∧
      ((Simple.analyze_transcript rl fn input).total_words = 0 →
        (Simple.analyze_transcript rl fn input).student_ratio = 0)) ∧
    (∀ (fn : String) (content : List Char),
      (V1.analyze_transcript fn content).ai_words +
          (V1.analyze_transcript fn content).student_words =
        (V1.analyze_transcript fn content).total_words ∧
      0 ≤ (V1.analyze_transcript fn content).student_ratio ∧
      (V1.analyze_transcript fn content).student_ratio ≤ 1 ∧
      (0 < (V1.analyze_transcript fn content).total_words →
        (V1.analyze_transcript fn content).student_ratio =
          ((V1.analyze_transcript fn content).student_words : ℚ) /
            ((V1.analyze_transcript fn content).total_words : ℚ)) ∧
      ((V1.analyze_transcript fn content).total_words = 0 →
        (V1.analyze_transcript fn content).student_ratio = 0)) := by
  refine ⟨fun rl fn input => ?_, v1_aggregate_invariants⟩
  cases input with
  | error e =>
    exact ⟨rfl, le_refl _, zero_le_one, fun h => absurd h (lt_irrefl 0), fun _ => rfl⟩
  | ok content =>
    by_cases hb : isBlankL content = true
    · have he : Simple.analyze_transcript rl fn (.ok content) =
          { filename := fn, segments := [], ai_words := 0, student_words := 0,
            total_words := 0, student_ratio := 0, quality_flags := ["Empty file"] } := by
        simp only [Simple.analyze_transcript]
        rw [if_pos hb]
      rw [he]
      exact ⟨rfl, le_refl _, zero_le_one, fun h => absurd h (lt_irrefl 0), fun _ => rfl⟩
    · rw [simple_analyze_ok_eq rl fn content (by simpa using hb)]
      exact simple_aggregate_invariants fn (Simple.segment_transcript rl content)

/-- Witness for C1 at a concrete input: the scenario transcript has
five total words and ratio `2/5 = student_words / total_words`. -/
theorem claim1_witness :
    0 < (Simple.analyze_transcript rlNone "f"
        (.ok ("Student: What is 2+2?\nAI: The answer is 4.".data))).total_words ∧
    (Simple.analyze_transcript rlNone "f"
        (.ok ("Student: What is 2+2?\nAI: The answer is 4.".data))).student_ratio =
      ((Simple.analyze_transcript rlNone "f"
        (.ok ("Student: What is 2+2?\nAI: The answer is 4.".data))).student_words : ℚ) /
        ((Simple.analyze_transcript rlNone "f"
          (.ok ("Student: What is 2+2?\nAI: The answer is 4.".data))).total_words : ℚ) := by
  have h : 0 < (Simple.analyze_transcript rlNone "f"
      (.ok ("Student: What is 2+2?\nAI: The answer is 4.".data))).total_words := by decide
  exact ⟨h, ((claim1_aggregate_invariants.1 rlNone "f" _).2.2.2.1 h)⟩

/-- The scenario input of §8 of the spec. -/
def scenarioInput : List Char := "Student: What is 2+2?\nAI: The answer is 4.".data

/-- Counterexample to claim C7: on the scenario input the two segments
have word counts 2 and 3 (the word counter only counts alphabetic
tokens, so `2+2` and `4` are not words), and the student ratio is
`2/5`, not `1/2`. -/
theorem claim7_counterexample :
    (Simple.analyze_transcript rlNone "t" (.ok scenarioInput)).segments.map
        (fun s => (s.speaker, s.word_count)) = [(Speaker.Student, 2), (Speaker.AI, 3)] ∧
    (Simple.analyze_transcript rlNone "t" (.ok scenarioInput)).student_ratio = 2 / 5 ∧
    ¬((Simple.analyze_transcript rlNone "t" (.ok scenarioInput)).segments.map
          (fun s => (s.speaker, s.word_count)) =
        [(Speaker.Student, 4), (Speaker.AI, 4)] ∧
      (Simple.analyze_transcript rlNone "t" (.ok scenarioInput)).student_ratio = 1 / 2) := by
  have hb : isBlankL scenarioInput = false := by decide
  have he := simple_analyze_ok_eq rlNone "t" scenarioInput hb
  have hai : Simple.aiWords (Simple.segment_transcript rlNone scenarioInput) = 3 := by decide
  have hst : Simple.studentWords (Simple.segment_transcript rlNone scenarioInput) = 2 := by
    decide
  have hsegs : (Simple.segment_transcript rlNone scenarioInput).map
      (fun s => (s.speaker, s.word_count)) = [(Speaker.Student, 2), (Speaker.AI, 3)] := by
    decide
  have hmap : (Simple.analyze_transcript rlNone "t" (.ok scenarioInput)).segments.map
      (fun s => (s.speaker, s.word_count)) = [(Speaker.Student, 2), (Speaker.AI, 3)] := by
    rw [he, simple_aggregate_segments]; exact hsegs
  have hratio : (Simple.analyze_transcript rlNone "t" (.ok scenarioInput)).student_ratio =
      2 / 5 := by
    rw [he, simple_aggregate_ratio, hai, hst]
    norm_num
  refine ⟨hmap, hratio, fun hcl => ?_⟩
  rw [hmap] at hcl
  exact absurd hcl.1 (by decide)

/-- Claim C7, amended: the engine produces exactly two segments, the
first with role Student and word count 2, the second with role AI and
word count 3 (only alphabetic tokens count as words), hence
`student_ratio = 2/5` over 5 total words. -/
theorem claim7_amended_scenario :
    (Simple.analyze_transcript rlNone "t" (.ok scenarioInput)).segments.map
        (fun s => (s.speaker, s.word_count)) = [(Speaker.Student, 2), (Speaker.AI, 3)] ∧
    (Simple.analyze_transcript rlNone "t" (.ok scenarioInput)).total_words = 5 ∧
    (Simple.analyze_transcript rlNone "t" (.ok scenarioInput)).student_ratio = 2 / 5 := by
  have hb : isBlankL scenarioInput = false := by decide
  have he := simple_analyze_ok_eq rlNone "t" scenarioInput hb
  have hai : Simple.aiWords (Simple.segment_transcript rlNone scenarioInput) = 3 := by decide
  have hst : Simple.studentWords (Simple.segment_transcript rlNone scenarioInput) = 2 := by
    decide
  refine ⟨?_, ?_, ?_⟩
  · rw [he, simple_aggregate_segments]
    decide
  · rw [he, simple_aggregate_total, hai, hst]
  · rw [he, simple_aggregate_ratio, hai, hst]
    norm_num

/-! ### Machinery for the segment line-range invariants (C2) -/

/-- A flush either emits nothing or appends the single candidate
segment (and then the chunk was non-empty). -/
lemma simple_flushSegs_shape (rl : RLevel) (e : Nat) (st : Simple.SegState) :
    Simple.flushSegs rl e st = st.segs ∨
    (st.chunk ≠ [] ∧
      Simple.flushSegs rl e st = st.segs ++ [Simple.flushSeg rl e st]) := by
  unfold Simple.flushSegs
  split
  · exact Or.inl rfl
  · next hc =>
    split
    · exact Or.inr ⟨by simpa [List.isEmpty_iff] using hc, rfl⟩
    · exact Or.inl rfl

lemma simple_flushSeg_start (rl : RLevel) (e : Nat) (st : Simple.SegState) :
    (Simple.flushSeg rl e st).line_start = st.startLine := rfl

lemma simple_flushSeg_end (rl : RLevel) (e : Nat) (st : Simple.SegState) :
    (Simple.flushSeg rl e st).line_end = e := rfl

/-- Any invariant preserved by one step of the segmentation loop is
preserved by the whole loop. -/
lemma simple_segLoop_pres (rl : RLevel) (Inv : Nat → Simple.SegState → Prop)
    (hstep : ∀ i line st, Inv i st → Inv (i + 1) (Simple.segStep rl i line st)) :
    ∀ (lines : List (List Char)) (i : Nat) (st : Simple.SegState),
      Inv i st → Inv (i + lines.length) (Simple.segLoop rl i lines st) := by
  intro lines
  induction lines with
  | nil => intro i st h; simpa [Simple.segLoop] using h
  | cons l ls ih =>
    intro i st h
    have h3 := ih (i + 1) (Simple.segStep rl i l st) (hstep i l st h)
    simp only [Simple.segLoop, List.length_cons]
    have he : i + (ls.length + 1) = (i + 1) + ls.length := by omega
    rw [he]
    exact h3

/-- The loop invariant for segment ordering: the open chunk starts
strictly before the line about to be processed (when non-empty), and the
emitted segments have well-formed, pairwise disjoint line ranges all
ending before the open start line. -/
def SegRangesInv (i : Nat) (st : Simple.SegState) : Prop :=
  st.startLine ≤ i ∧ (st.chunk ≠ [] → st.startLine < i) ∧
  (∀ s ∈ st.segs, s.line_start ≤ s.line_end ∧ s.line_end < st.startLine) ∧
  st.segs.Pairwise (fun a b => a.line_end < b.line_start)

lemma simple_segStep_ranges (rl : RLevel) (i : Nat) (line : List Char)
    (st : Simple.SegState) (h : SegRangesInv i st) :
    SegRangesInv (i + 1) (Simple.segStep rl i line st) := by
  obtain ⟨h1, h2, h3, h4⟩ := h
  unfold Simple.segStep
  split
  · split
    · exact ⟨by omega, fun _ => by omega, h3, h4⟩
    · exact ⟨show st.startLine ≤ i + 1 by omega,
        fun _ => show st.startLine < i + 1 by omega, h3, h4⟩
  · split
    · next rc heq =>
      split
      · refine ⟨?_, ?_, ?_, ?_⟩ <;> dsimp only
        · omega
        · exact fun _ => by omega
        · intro s hs
          rcases simple_flushSegs_shape rl (i - 1) st with hsh | ⟨hc, hsh⟩
          · rw [hsh] at hs
            have hsp := h3 s hs
            exact ⟨hsp.1, by omega⟩
          · rw [hsh] at hs
            rcases List.mem_append.mp hs with hs2 | hs2
            · have hsp := h3 s hs2
              exact ⟨hsp.1, by omega⟩
            · have hseq : s = Simple.flushSeg rl (i - 1) st := by simpa using hs2
              subst hseq
              have hlt := h2 hc
              rw [simple_flushSeg_start, simple_flushSeg_end]
              omega
        · rcases simple_flushSegs_shape rl (i - 1) st with hsh | ⟨hc, hsh⟩
          · rw [hsh]; exact h4
          · rw [hsh, List.pairwise_append]
            refine ⟨h4, by simp, fun a ha b hb => ?_⟩
            have hb2 : b = Simple.flushSeg rl (i - 1) st := by simpa using hb
            subst hb2
            rw [simple_flushSeg_start]
            exact (h3 a ha).2
      · exact ⟨show st.startLine ≤ i + 1 by omega,
          fun _ => show st.startLine < i + 1 by omega, h3, h4⟩
    · exact ⟨show st.startLine ≤ i + 1 by omega,
        fun _ => show st.startLine < i + 1 by omega, h3, h4⟩

/-- The main marker pass emits segments with well-formed, pairwise
disjoint, ordered line ranges. -/
lemma simple_segsMain_ranges (rl : RLevel) (content : List Char) :
    (∀ s ∈ Simple.segsMain rl content, s.line_start ≤ s.line_end) ∧
    (Simple.segsMain rl content).Pairwise (fun a b => a.line_end < b.line_start) := by
  have h0 : SegRangesInv 0
      { segs := [], chunk := [], speaker := none, startLine := 0 } :=
    ⟨le_refl 0, fun hc => absurd rfl hc, by simp, by simp⟩
  have hInv := simple_segLoop_pres rl SegRangesInv
    (simple_segStep_ranges rl) (splitNl content) 0 _ h0
  rw [Nat.zero_add] at hInv
  set st := Simple.segLoop rl 0 (splitNl content)
    { segs := [], chunk := [], speaker := none, startLine := 0 } with hst
  obtain ⟨h1, h2, h3, h4⟩ := hInv
  have : Simple.segsMain rl content =
      Simple.flushSegs rl ((splitNl content).length - 1) st := rfl
  rw [this]
  rcases simple_flushSegs_shape rl ((splitNl content).length - 1) st with hsh | ⟨hc, hsh⟩
  · rw [hsh]
    exact ⟨fun s hs => (h3 s hs).1, h4⟩
  · rw [hsh]
    have hlt := h2 hc
    constructor
    · intro s hs
      rcases List.mem_append.mp hs with hs2 | hs2
      · exact (h3 s hs2).1
      · have hseq : s = Simple.flushSeg rl ((splitNl content).length - 1) st := by
          simpa using hs2
        subst hseq
        rw [simple_flushSeg_start, simple_flushSeg_end]
        omega
    · rw [List.pairwise_append]
      refine ⟨h4, by simp, fun a ha b hb => ?_⟩
      have hb2 : b = Simple.flushSeg rl ((splitNl content).length - 1) st := by
        simpa using hb
      subst hb2
      rw [simple_flushSeg_start]
      have := (h3 a ha).2
      omega

/-- In a list of segments with pairwise disjoint ordered ranges, any
line index is covered by at most one segment. -/
lemma pairwise_cover_le_one (i : Nat) :
    ∀ (l : List Simple.TextSegment),
      l.Pairwise (fun a b => a.line_end < b.line_start) →
      (l.filter (fun s => decide (s.line_start ≤ i) && decide (i ≤ s.line_end))).length
        ≤ 1 := by
  intro l
  induction l with
  | nil => simp
  | cons a t ih =>
    intro hp
    rw [List.pairwise_cons] at hp
    obtain ⟨ha, ht⟩ := hp
    by_cases hc : (decide (a.line_start ≤ i) && decide (i ≤ a.line_end)) = true
    · have hfe : t.filter (fun s => decide (s.line_start ≤ i) && decide (i ≤ s.line_end))
          = [] := by
        rw [List.filter_eq_nil]
        intro b hb
        have hab := ha b hb
        simp only [Bool.and_eq_true, decide_eq_true_eq] at hc ⊢
        omega
      rw [List.filter_cons, if_pos hc, hfe]
      simp
    · rw [List.filter_cons, if_neg hc]
      exact ih ht

/-- The input refuting C2 for the simple segmenter: a leading blank line
followed by a marker line. -/
def cx2Input : List Char := "\nStudent: hi".data

/-- Counterexample to claim C2: on `"\nStudent: hi"` there are two
lines, the single produced segment spans lines `[1, 1]`, and line 0 is
covered by no segment (the leading blank line is dropped, not retained
in any segment's interior). -/
theorem claim2_counterexample :
    (splitNl cx2Input).length = 2 ∧
    (Simple.segment_transcript rlNone cx2Input).map
        (fun s => (s.line_start, s.line_end)) = [(1, 1)] ∧
    ¬∃ s ∈ Simple.segment_transcript rlNone cx2Input,
        s.line_start ≤ 0 ∧ 0 ≤ s.line_end := by
  refine ⟨by decide, by decide, ?_⟩
  have hall : ∀ s ∈ Simple.segment_transcript rlNone cx2Input,
      ¬(s.line_start ≤ 0 ∧ 0 ≤ s.line_end) := by decide
  rintro ⟨s, hs, hcov⟩
  exact hall s hs hcov

/-- Claim C2, amended: every line index is covered by at most one
segment of the simple segmenter's output (line indices before the first
marker-opened chunk, dropped blank prefixes and discarded zero-word
chunks may be covered by none); the segments have `line_start ≤
line_end` and are pairwise disjoint and strictly ordered by line range.
The v2 content fallback does not even track real line ranges: its
segments carry the approximation `[i*10, (i+1)*10]`
(`claim2_v2_approx_ranges`). -/
theorem claim2_amended_ranges (rl : RLevel) (content : List Char) :
    (∀ s ∈ Simple.segment_transcript rl content, s.line_start ≤ s.line_end) ∧
    (Simple.segment_transcript rl content).Pairwise
      (fun a b => a.line_end < b.line_start) ∧
    (∀ (rl2 : RLevel) (lines : List (List Char)),
      ∀ s ∈ V2.segment_by_content rl2 lines,
        ∃ i : Nat, s.start_line = i * 10 ∧ s.end_line = (i + 1) * 10) ∧
    ∀ i : Nat,
      ((Simple.segment_transcript rl content).filter
        (fun s => decide (s.line_start ≤ i) && decide (i ≤ s.line_end))).length ≤ 1 := by
  have hmain := simple_segsMain_ranges rl content
  have hout : (∀ s ∈ Simple.segment_transcript rl content, s.line_start ≤ s.line_end) ∧
      (Simple.segment_transcript rl content).Pairwise
        (fun a b => a.line_end < b.line_start) := by
    simp only [Simple.segment_transcript]
    split
    · split
      · refine ⟨?_, by simp⟩
        intro s hs
        simp only [List.mem_singleton] at hs
        subst hs
        dsimp only
        omega
      · exact ⟨by simp, by simp⟩
    · exact hmain
  refine ⟨hout.1, hout.2, ?_, fun i => pairwise_cover_le_one i _ hout.2⟩
  intro rl2 lines s hs
  unfold V2.segment_by_content at hs
  simp only [List.mem_map] at hs
  obtain ⟨ic, hic, rfl⟩ := hs
  exact ⟨ic.1, rfl, rfl⟩

/-- Witness for C2 (amended): coverage of each of the two lines of the
counterexample input is at most one, and the segment ranges are
well-formed. -/
theorem claim2_amended_witness :
    (∀ s ∈ Simple.segment_transcript rlNone cx2Input, s.line_start ≤ s.line_end) ∧
    ((Simple.segment_transcript rlNone cx2Input).filter
      (fun s => decide (s.line_start ≤ 0) && decide (0 ≤ s.line_end))).length ≤ 1 ∧
    ((Simple.segment_transcript rlNone cx2Input).filter
      (fun s => decide (s.line_start ≤ 1) && decide (1 ≤ s.line_end))).length ≤ 1 := by
  have h := claim2_amended_ranges rlNone cx2Input
  exact ⟨h.1, h.2.2.2 0, h.2.2.2 1⟩

/-- Claim C3: whenever a segment's text carries an explicit
speaker-marker match, the classifier returns the marker's role (first
matching rule family in the declared order) at confidence 0.95, for
every content-based stage whatsoever — so neither content-pattern
scores nor extracted features can override a marker; moreover the
actual classifiers are instances of the parameterized ones, and a
marker-opened chunk is flushed with the marker's role at confidence
0.9 without consulting the classifier at all. -/
theorem claim3_marker_overrides_content (text : List Char) :
    (isBlankL text = false →
      (searchAny Simple.student_markers text = true →
        ∀ cs, Simple.classify_speaker_with cs text =
          (Speaker.Student, ConfVal.const (19 / 20))) ∧
      (searchAny Simple.student_markers text = false →
        searchAny Simple.ai_markers text = true →
        ∀ cs, Simple.classify_speaker_with cs text =
          (Speaker.AI, ConfVal.const (19 / 20)))) ∧
    ((searchAny V2.explicit_ai_markers text = true →
      ∀ cs f, V2.calculate_speaker_probability_with cs text f =
        (Speaker.AI, ConfVal.const (19 / 20))) ∧
     (searchAny V2.explicit_ai_markers text = false →
      searchAny V2.explicit_student_markers text = true →
      ∀ cs f, V2.calculate_speaker_probability_with cs text f =
        (Speaker.Student, ConfVal.const (19 / 20)))) ∧
    (∀ rl : RLevel, Simple.classify_speaker rl text =
      Simple.classify_speaker_with (Simple.classify_content rl) text) ∧
    (∀ (rl : RLevel) (e : Nat) (st : Simple.SegState) (sp : Speaker),
      st.speaker = some sp →
      (Simple.flushSeg rl e st).speaker = sp ∧
      (Simple.flushSeg rl e st).confidence = ConfVal.const (9 / 10)) := by
  refine ⟨fun hb => ⟨fun hs cs => ?_, fun hs ha cs => ?_⟩,
    ⟨fun ha cs f => ?_, fun ha hs cs f => ?_⟩, fun rl => rfl,
    fun rl e st sp hsp => ?_⟩
  · simp [Simple.classify_speaker_with, hb, hs]
  · simp [Simple.classify_speaker_with, hb, hs, ha]
  · simp [V2.calculate_speaker_probability_with, ha]
  · simp [V2.calculate_speaker_probability_with, ha, hs]
  · constructor <;> simp [Simple.flushSeg, hsp]

/-- Witness for C3: both classifiers return the marker verdict on a
marker-carrying text, whatever the reading-level oracle produced. -/
theorem claim3_witness :
    Simple.classify_speaker_with (Simple.classify_content rlNone)
        ("Student: hi".data) = (Speaker.Student, ConfVal.const (19 / 20)) ∧
    V2.calculate_speaker_probability_with V2.content_probability ("Student: hi".data)
        (V2.extract_features rlNone ("Student: hi".data)) =
      (Speaker.Student, ConfVal.const (19 / 20)) := by
  have h := claim3_marker_overrides_content ("Student: hi".data)
  exact ⟨(h.1 (by decide)).1 (by decide) _,
    h.2.1.2 (by decide) (by decide) _ _⟩

/-- A marker-free, pattern-free ten-word input on which the v1 additive
score stays at its neutral start 0.5. -/
def c4Input : List Char := "one two three four five six seven eight nine ten".data

/-- Counterexample to claim C4: the v1 variant
(`transcript_analyzer.py`) classifies an unmarked segment without any
logistic squash — its additive probability stays exactly `1/2` on the
neutral input and the emitted segment's confidence is
`|1/2 - 1/2| * 2 = 0`, which no value of `max(p, 1-p)` can equal (that
maximum is always at least `1/2`). -/
theorem claim4_counterexample :
    V1.calculate_ai_probability c4Input = 1 / 2 ∧
    (V1.segment_transcript c4Input).map (fun s => (s.speaker, s.confidence)) =
      [(Speaker.Student, 0)] ∧
    (∀ p : ℝ, (0 : ℝ) ≠ max p (1 - p)) := by
  have hwc : V1.count_words c4Input = 10 := by decide
  have h1 : (V1.ai_patterns.filter (fun p => searchEx p c4Input)).length = 0 := by decide
  have h2 : (V1.instructor_patterns.filter (fun p => searchEx p c4Input)).length = 0 := by
    decide
  have h3 : (V1.student_patterns.filter (fun p => searchEx p c4Input)).length = 0 := by
    decide
  have h4 : (V1.noise_patterns.filter (fun p => searchEx p c4Input)).length = 0 := by decide
  have h5 : searchEx V1.math_re c4Input = false := by decide
  have h6 : searchEx V1.instr_re c4Input = false := by decide
  have hp : V1.calculate_ai_probability c4Input = 1 / 2 := by
    simp only [V1.calculate_ai_probability]
    rw [hwc, h1, h2, h3, h4, h5, h6]
    norm_num
  have hloop : V1.segLoop 0 (splitNl c4Input)
      { segs := [], chunk := [], speaker := none, startLine := 0 } =
      { segs := [], chunk := [c4Input], speaker := none, startLine := 0 } := by decide
  have hseg : V1.segment_transcript c4Input =
      [{ text := c4Input, speaker := Speaker.Student, word_count := 10, confidence := 0,
         line_start := 0, line_end := 0 }] := by
    have hdef : V1.segment_transcript c4Input =
        V1.flushSegs ((splitNl c4Input).length - 1)
          (V1.segLoop 0 (splitNl c4Input)
            { segs := [], chunk := [], speaker := none, startLine := 0 }) := rfl
    rw [hdef, hloop]
    have hjoin : joinNl [c4Input] = c4Input := rfl
    simp only [V1.flushSegs, hjoin, hwc, List.isEmpty_cons, V1.classify_unmarked, hp]
    norm_num
    decide
  refine ⟨hp, by rw [hseg]; rfl, fun p hcontra => ?_⟩
  rcases le_total p (1 / 2) with h | h
  · have := le_max_right p (1 - p)
    have : (1 : ℝ) / 2 ≤ max p (1 - p) := le_trans (by linarith) this
    linarith [hcontra ▸ this]
  · have := le_max_left p (1 - p)
    have : (1 : ℝ) / 2 ≤ max p (1 - p) := le_trans (by linarith) this
    linarith [hcontra ▸ this]

/-- Claim C4, amended: in the simple (and v2) variants the additive
score is squashed through the logistic function, giving
`ai_probability` strictly between 0 and 1, the role is AI exactly when
`ai_probability > 1/2`, and the confidence is `max(p, 1-p)`; the v1
variant (`transcript_analyzer.py`) instead uses the clamped additive
score directly with confidence `|p - 1/2| * 2`. -/
theorem claim4_amended_sigmoid_decision (rl : RLevel) (text : List Char)
    (hb : isBlankL text = false)
    (hs : searchAny Simple.student_markers text = false)
    (ha : searchAny Simple.ai_markers text = false) :
    0 < sigmoid (Simple.content_score rl text) ∧
    sigmoid (Simple.content_score rl text) < 1 ∧
    ((Simple.classify_speaker rl text).1 = Speaker.AI ↔
      1 / 2 < sigmoid (Simple.content_score rl text)) ∧
    (Simple.classify_speaker rl text).2.val =
      max (sigmoid (Simple.content_score rl text))
        (1 - sigmoid (Simple.content_score rl text)) ∧
    (∀ t2 : List Char, V1.classify_unmarked t2 =
      (if 1 / 2 < V1.calculate_ai_probability t2 then Speaker.AI else Speaker.Student,
        |V1.calculate_ai_probability t2 - 1 / 2| * 2)) := by
  have hcl : Simple.classify_speaker rl text = Simple.classify_content rl text := by
    simp [Simple.classify_speaker, Simple.classify_speaker_with, hb, hs, ha]
  refine ⟨sigmoid_pos _, sigmoid_lt_one _, ?_, ?_, fun t2 => rfl⟩
  · rw [hcl, half_lt_sigmoid_iff]
    unfold Simple.classify_content
    by_cases hpos : 0 < Simple.content_score rl text
    · simp [hpos]
    · simp [hpos]
  · rw [hcl]
    unfold Simple.classify_content
    exact ConfVal.val_sigmoidMax _

/-- Input for the C4 witness: non-blank, marker-free text. -/
def c4WitnessInput : List Char := "hello there friend".data

/-- Witness for C4 (amended) at a concrete marker-free input. -/
theorem claim4_witness :
    ((Simple.classify_speaker rlNone c4WitnessInput).1 = Speaker.AI ↔
      1 / 2 < sigmoid (Simple.content_score rlNone c4WitnessInput)) ∧
    (Simple.classify_speaker rlNone c4WitnessInput).2.val =
      max (sigmoid (Simple.content_score rlNone c4WitnessInput))
        (1 - sigmoid (Simple.content_score rlNone c4WitnessInput)) := by
  have h := claim4_amended_sigmoid_decision rlNone c4WitnessInput
    (by decide) (by decide) (by decide)
  exact ⟨h.2.2.1, h.2.2.2.1⟩

/-! ### Machinery for the positive-word-count invariant (C5) -/

/-- `dropWhile` either returns nothing or starts with a non-satisfying
element. -/
lemma dropWhile_head_not (p : Char → Bool) :
    ∀ l : List Char, l.dropWhile p = [] ∨
      ∃ c t, l.dropWhile p = c :: t ∧ p c = false := by
  intro l
  induction l with
  | nil => exact Or.inl rfl
  | cons a t ih =>
    by_cases hp : p a = true
    · simpa [List.dropWhile, hp] using ih
    · right
      exact ⟨a, t, by simp [List.dropWhile, hp], by simpa using hp⟩

/-- A non-empty stripped string is non-blank (its first character
survived the leading-whitespace drop). -/
lemma stripL_not_blank (x : List Char) (h : stripL x ≠ []) :
    isBlankL (stripL x) = false := by
  unfold stripL at h ⊢
  rcases dropWhile_head_not isWs x with hnil | ⟨c, t, hdc, hc⟩
  · rw [hnil] at h
    simp at h
  · rw [hdc] at h ⊢
    have hsuf : (c :: t).reverse.dropWhile isWs <:+ (c :: t).reverse :=
      List.dropWhile_suffix _
    have hpre : ((c :: t).reverse.dropWhile isWs).reverse <+: (c :: t) := by
      have h2 := List.reverse_prefix.mpr (by simpa using hsuf)
      simpa using h2
    obtain ⟨u, hu⟩ := hpre
    cases hstrip : ((c :: t).reverse.dropWhile isWs).reverse with
    | nil => exact absurd hstrip h
    | cons c2 t2 =>
      rw [hstrip] at hu
      have hc2 : c2 = c := by
        have h3 := congrArg List.head? hu
        simpa using h3
      subst hc2
      simp [isBlankL, hc]

/-- A string is non-blank exactly when it holds a non-whitespace
character. -/
lemma isBlankL_false_iff (l : List Char) :
    isBlankL l = false ↔ ∃ c ∈ l, isWs c = false := by
  constructor
  · intro h
    by_contra hno
    push_neg at hno
    have hall : isBlankL l = true := by
      simp only [isBlankL, List.all_eq_true]
      intro c hc
      rcases Bool.eq_false_or_eq_true (isWs c) with ht | hf
      · exact ht
      · exact absurd hf (hno c hc)
    rw [hall] at h; cases h
  · rintro ⟨c, hc, hcw⟩
    rcases Bool.eq_false_or_eq_true (isBlankL l) with ht | hf
    · exfalso
      have h2 := (List.all_eq_true.mp ht) c hc
      rw [hcw] at h2; cases h2
    · exact hf

/-- A character of a chunk line is a character of the joined chunk. -/
lemma mem_joinNl :
    ∀ (chunk : List (List Char)) (l : List Char) (c : Char),
      l ∈ chunk → c ∈ l → c ∈ joinNl chunk := by
  intro chunk
  induction chunk with
  | nil => intro l c hl; cases hl
  | cons a t ih =>
    intro l c hl hc
    rcases List.mem_cons.mp hl with rfl | hlt
    · cases t with
      | nil => simpa [joinNl] using hc
      | cons b u =>
        simp only [joinNl, List.mem_append, List.mem_cons]
        exact Or.inl hc
    · cases t with
      | nil => cases hlt
      | cons b u =>
        have h2 := ih l c hlt hc
        simp only [joinNl, List.mem_append, List.mem_cons]
        exact Or.inr (Or.inr (by simpa [joinNl] using h2))

/-- Joining a chunk that contains a non-blank line yields non-blank
text. -/
lemma joinNl_not_blank (chunk : List (List Char))
    (h : ∃ l ∈ chunk, isBlankL l = false) : isBlankL (joinNl chunk) = false := by
  rw [isBlankL_false_iff]
  obtain ⟨l, hl, hlb⟩ := h
  rw [isBlankL_false_iff] at hlb
  obtain ⟨c, hc, hcw⟩ := hlb
  exact ⟨c, mem_joinNl chunk l c hl hc, hcw⟩

/-- Helper: the whitespace-split word count is positive on any list
with a non-whitespace character. -/
lemma splitWsCountGo_pos :
    ∀ l : List Char, (∃ c ∈ l, isWs c = false) → 0 < splitWsCountGo false l := by
  intro l
  induction l with
  | nil => rintro ⟨c, hc, -⟩; cases hc
  | cons a t ih =>
    rintro ⟨c, hc, hcw⟩
    by_cases ha : isWs a = true
    · rcases List.mem_cons.mp hc with rfl | hct
      · rw [ha] at hcw; cases hcw
      · simp only [splitWsCountGo, ha, if_true]
        exact ih ⟨c, hct, hcw⟩
    · simp only [splitWsCountGo, ha, if_false, Bool.false_eq_true]
      omega

lemma splitWsCount_pos (l : List Char) (h : isBlankL l = false) : 0 < splitWsCount l :=
  splitWsCountGo_pos l ((isBlankL_false_iff l).mp h)

/-- A v2 segment created from a chunk containing a non-blank line has a
positive word count. -/
lemma v2_create_segment_wc (rl : RLevel) (chunk : List (List Char))
    (speaker : Option Speaker) (a b : Nat) (h : ∃ l ∈ chunk, isBlankL l = false) :
    0 < (V2.create_segment rl chunk speaker a b).word_count := by
  have htext := joinNl_not_blank chunk h
  show 0 < (match V2.extract_features rl (joinNl chunk) with
    | some ft => ft.word_count
    | none => 0)
  unfold V2.extract_features
  rw [if_neg (by simp [htext])]
  exact splitWsCount_pos _ htext

lemma v2_flushSegs_wc (rl : RLevel) (e : Nat) (st : V2.SegState)
    (hchunk : st.chunk = [] ∨ ∃ l ∈ st.chunk, isBlankL l = false)
    (h : ∀ s ∈ st.segs, 0 < s.word_count) :
    ∀ s ∈ V2.flushSegs rl e st, 0 < s.word_count := by
  intro s hs
  unfold V2.flushSegs at hs
  split at hs
  · exact h s hs
  · next hc =>
    rcases List.mem_append.mp hs with hs2 | hs2
    · exact h s hs2
    · have heq : s = V2.create_segment rl st.chunk st.speaker st.startLine e := by
        simpa using hs2
      subst heq
      rcases hchunk with hnil | hex
      · exact absurd hnil (by simpa [List.isEmpty_iff] using hc)
      · exact v2_create_segment_wc rl st.chunk st.speaker st.startLine e hex

/-- Cleaned marker remainders are always stripped strings. -/
lemma firstMatch_stripL :
    ∀ (ps : List RE) (line c : List Char),
      Simple.firstMatch ps line = some c → ∃ r, c = stripL r := by
  intro ps
  induction ps with
  | nil => intro line c h; simp [Simple.firstMatch] at h
  | cons p ps ih =>
    intro line c h
    unfold Simple.firstMatch at h
    cases hm : matchPref p none line with
    | some rest =>
      rw [hm] at h
      exact ⟨rest, by simpa using h.symm⟩
    | none =>
      rw [hm] at h
      exact ih line c h

lemma v2_detect_clean (line : List Char) (rc : Speaker × List Char)
    (h : V2.detect_marker line = some rc) : ∃ r, rc.2 = stripL r := by
  unfold V2.detect_marker at h
  cases hs : Simple.firstMatch V2.explicit_student_markers line with
  | some clean =>
    rw [hs] at h
    obtain ⟨r, hr⟩ := firstMatch_stripL _ line clean hs
    have : rc = (Speaker.Student, clean) := by simpa using h.symm
    exact ⟨r, by rw [this, hr]⟩
  | none =>
    rw [hs] at h
    cases ha : Simple.firstMatch V2.explicit_ai_markers line with
    | some clean =>
      rw [ha] at h
      obtain ⟨r, hr⟩ := firstMatch_stripL _ line clean ha
      have : rc = (Speaker.AI, clean) := by simpa using h.symm
      exact ⟨r, by rw [this, hr]⟩
    | none => rw [ha] at h; cases h

/-- The v2 chunk/word-count invariant is preserved by one step. -/
lemma v2_segStep_inv (rl : RLevel) (i : Nat) (line : List Char) (st : V2.SegState)
    (h : (st.chunk = [] ∨ ∃ l ∈ st.chunk, isBlankL l = false) ∧
      ∀ s ∈ st.segs, 0 < s.word_count) :
    ((V2.segStep rl i line st).chunk = [] ∨
      ∃ l ∈ (V2.segStep rl i line st).chunk, isBlankL l = false) ∧
    ∀ s ∈ (V2.segStep rl i line st).segs, 0 < s.word_count := by
  obtain ⟨hchunk, hsegs⟩ := h
  unfold V2.segStep
  split
  · next hbl =>
    split
    · exact ⟨hchunk, hsegs⟩
    · next hne =>
      refine ⟨Or.inr ?_, hsegs⟩
      rcases hchunk with hnil | ⟨l, hl, hlb⟩
      · exact absurd hnil (by simpa [List.isEmpty_iff] using hne)
      · exact ⟨l, List.mem_append_left _ hl, hlb⟩
  · next hbl =>
    split
    · next rc heq =>
      split
      · refine ⟨?_, v2_flushSegs_wc rl (i - 1) st hchunk hsegs⟩
        dsimp only
        by_cases hce : rc.2.isEmpty = true
        · rw [if_pos hce]
          exact Or.inl rfl
        · rw [if_neg hce]
          right
          obtain ⟨r, hr⟩ := v2_detect_clean line rc heq
          refine ⟨rc.2, by simp, ?_⟩
          rw [hr]
          exact stripL_not_blank r (by rw [← hr]; simpa [List.isEmpty_iff] using hce)
      · refine ⟨Or.inr ⟨line, List.mem_append_right _ (by simp), ?_⟩, hsegs⟩
        simpa using hbl
    · refine ⟨Or.inr ⟨line, List.mem_append_right _ (by simp), ?_⟩, hsegs⟩
      next hbl2 => simpa using hbl

/-- Any state invariant preserved by one v2 step is preserved by the
loop. -/
lemma v2_segLoop_pres (rl : RLevel) (Inv : V2.SegState → Prop)
    (hstep : ∀ i line st, Inv st → Inv (V2.segStep rl i line st)) :
    ∀ (lines : List (List Char)) (i : Nat) (st : V2.SegState),
      Inv st → Inv (V2.segLoop rl i lines st) := by
  intro lines
  induction lines with
  | nil => intro i st h; simpa [V2.segLoop] using h
  | cons l ls ih =>
    intro i st h
    exact ih (i + 1) (V2.segStep rl i l st) (hstep i l st h)

/-- The simple word-count invariant is preserved by a flush. -/
lemma simple_flushSegs_wc (rl : RLevel) (e : Nat) (st : Simple.SegState)
    (h : ∀ s ∈ st.segs, 0 < s.word_count) :
    ∀ s ∈ Simple.flushSegs rl e st, 0 < s.word_count := by
  intro s hs
  unfold Simple.flushSegs at hs
  split at hs
  · exact h s hs
  · split at hs
    · next hwc =>
      rcases List.mem_append.mp hs with hs2 | hs2
      · exact h s hs2
      · have heq : s = Simple.flushSeg rl e st := by simpa using hs2
        subst heq
        exact hwc
    · exact h s hs

lemma simple_segStep_wc (rl : RLevel) (i : Nat) (line : List Char)
    (st : Simple.SegState) (h : ∀ s ∈ st.segs, 0 < s.word_count) :
    ∀ s ∈ (Simple.segStep rl i line st).segs, 0 < s.word_count := by
  unfold Simple.segStep
  split
  · split
    · exact h
    · exact h
  · split
    · next rc heq =>
      split
      · exact simple_flushSegs_wc rl (i - 1) st h
      · exact h
    · exact h

/-- Claim C5: every segment in the simple segmenter's output, and every
segment of the v2 marker pass, has a positive word count (flushed
chunks with zero extracted words are discarded by the simple variant's
guard; in v2, any flushed chunk necessarily contains a non-blank line
and so splits into at least one word). -/
theorem claim5_segments_positive_wordcount :
    (∀ (rl : RLevel) (content : List Char),
      ∀ s ∈ Simple.segment_transcript rl content, 0 < s.word_count) ∧
    (∀ (rl : RLevel) (lines : List (List Char)),
      ∀ s ∈ V2.segment_by_markers rl lines, 0 < s.word_count) := by
  constructor
  · intro rl content
    have hmain : ∀ s ∈ Simple.segsMain rl content, 0 < s.word_count := by
      apply simple_flushSegs_wc
      exact simple_segLoop_pres rl (fun _ st => ∀ s ∈ st.segs, 0 < s.word_count)
        (fun i line st h => simple_segStep_wc rl i line st h)
        (splitNl content) 0 _ (by simp)
    simp only [Simple.segment_transcript]
    split
    · split
      · next hwc =>
        intro s hs
        simp only [List.mem_singleton] at hs
        subst hs
        exact hwc
      · simp
    · exact hmain
  · intro rl lines
    have hInv := v2_segLoop_pres rl
      (fun st => (st.chunk = [] ∨ ∃ l ∈ st.chunk, isBlankL l = false) ∧
        ∀ s ∈ st.segs, 0 < s.word_count)
      (fun i line st h => v2_segStep_inv rl i line st h) lines 0
      { segs := [], chunk := [], speaker := none, startLine := 0 }
      ⟨Or.inl rfl, by simp⟩
    exact v2_flushSegs_wc rl (lines.length - 1) _ hInv.1 hInv.2

/-- A fallback segment value used only to sample the head of a segment
list in witnesses. -/
def dummySeg : Simple.TextSegment :=
  { text := [], speaker := Speaker.AI, confidence := ConfVal.const 0,
    word_count := 1, line_start := 0, line_end := 0 }

/-- Witness for C5: the first segment of a concrete run has a positive
word count. -/
theorem claim5_witness :
    0 < ((Simple.segment_transcript rlNone ("Student: hi".data)).headD
      dummySeg).word_count := by
  cases hl : Simple.segment_transcript rlNone ("Student: hi".data) with
  | nil => exact absurd hl (by decide)
  | cons a t =>
    have h2 := claim5_segments_positive_wordcount.1 rlNone ("Student: hi".data) a
      (by rw [hl]; exact List.mem_cons_self a t)
    simpa [hl] using h2

/-- An input of alternating marker-only lines: the marker pass emits
nothing, so the content fallback runs — on a chunk that still contains
explicit markers. -/
def c6Input : List Char := "Student:\nAI:\nStudent:".data

/-- Counterexample to claim C6: on the marker-only input the marker
pass produces zero segments so the fallback runs, yet the fallback's
single chunk is classified by an explicit AI-marker hit (role AI,
confidence 0.95) — a marker lookup — and not by content-based scoring,
which would return role Student with a sigmoid confidence. -/
theorem claim6_counterexample :
    V2.segment_by_markers rlNone (splitNl c6Input) = [] ∧
    (V2.smart_segment_transcript rlNone c6Input).map
        (fun s => (s.speaker_prediction, s.confidence)) =
      [(Speaker.AI, ConfVal.const (19 / 20))] ∧
    V2.content_probability c6Input (V2.extract_features rlNone c6Input) ≠
      (Speaker.AI, ConfVal.const (19 / 20)) := by
  refine ⟨by decide, by with_unfolding_all decide, ?_⟩
  intro hcontra
  have h1 : (V2.content_probability c6Input (V2.extract_features rlNone c6Input)).1 =
      Speaker.Student := by with_unfolding_all decide
  rw [hcontra] at h1
  cases h1

/-- Claim C6, amended: whenever the marker pass produces zero segments
the transcript is instead segmented by content (paragraph chunks at
blank-line boundaries, chunks of at most two lines merging into the
following paragraph), and each chunk is classified independently by
`calculate_speaker_probability` — which still consults the explicit
marker lists first, so marker lookups do occur in the fallback path. -/
theorem claim6_amended_fallback (rl : RLevel) (content : List Char)
    (hempty : V2.segment_by_markers rl (splitNl content) = []) :
    V2.smart_segment_transcript rl content =
      V2.segment_by_content rl (splitNl content) ∧
    ∀ s ∈ V2.smart_segment_transcript rl content,
      (s.speaker_prediction, s.confidence) =
        V2.calculate_speaker_probability s.text (V2.extract_features rl s.text) := by
  have h1 : V2.smart_segment_transcript rl content =
      V2.segment_by_content rl (splitNl content) := by
    simp only [V2.smart_segment_transcript, hempty]
    simp
  refine ⟨h1, ?_⟩
  rw [h1]
  unfold V2.segment_by_content
  intro s hs
  simp only [List.mem_map] at hs
  obtain ⟨ic, hic, hbuild⟩ := hs
  subst hbuild
  rfl

/-- Witness for C6 (amended) on the marker-only input, whose marker
pass is empty. -/
theorem claim6_witness :
    V2.smart_segment_transcript rlNone c6Input =
      V2.segment_by_content rlNone (splitNl c6Input) :=
  (claim6_amended_fallback rlNone c6Input (by decide)).1

/-- Claim C8: a failed read and a blank (or empty) content each produce
an analysis with no segments, all-zero totals, zero ratio, zero
confidence score and a descriptive quality flag ("Read error: ..."
resp. "Empty file"), in both the simple and v2 variants; and the batch
is a pure per-file map, so one file's outcome never affects another
file's analysis. -/
theorem claim8_error_empty_handling :
    (∀ (rl : RLevel) (fn e : String),
      Simple.analyze_transcript rl fn (.error e) =
        { filename := fn, segments := [], ai_words := 0, student_words := 0,
          total_words := 0, student_ratio := 0,
          quality_flags := ["Read error: " ++ e] } ∧
      Simple.confidence_score (Simple.analyze_transcript rl fn (.error e)) = 0) ∧
    (∀ (rl : RLevel) (fn : String) (content : List Char), isBlankL content = true →
      Simple.analyze_transcript rl fn (.ok content) =
        { filename := fn, segments := [], ai_words := 0, student_words := 0,
          total_words := 0, student_ratio := 0, quality_flags := ["Empty file"] } ∧
      Simple.confidence_score (Simple.analyze_transcript rl fn (.ok content)) = 0) ∧
    (∀ (rl : RLevel) (fn e : String),
      V2.analyze_transcript rl fn (.error e) =
        { filename := fn, segments := [], ai_words := 0, student_words := 0,
          total_words := 0, student_ratio := 0, parsing_method := "error",
          quality_flags := ["Read error: " ++ e] }) ∧
    (∀ (rl : RLevel) (fn : String) (content : List Char), isBlankL content = true →
      V2.analyze_transcript rl fn (.ok content) =
        { filename := fn, segments := [], ai_words := 0, student_words := 0,
          total_words := 0, student_ratio := 0, parsing_method := "empty",
          quality_flags := ["Empty file"] }) ∧
    (∀ (rl : RLevel) (f : String × Except String (List Char))
        (fs : List (String × Except String (List Char))),
      Simple.analyze_batch rl (f :: fs) =
        Simple.analyze_transcript rl f.1 f.2 :: Simple.analyze_batch rl fs) ∧
    (∀ (rl : RLevel) (fs gs : List (String × Except String (List Char))),
      Simple.analyze_batch rl (fs ++ gs) =
        Simple.analyze_batch rl fs ++ Simple.analyze_batch rl gs) := by
  refine ⟨fun rl fn e => ⟨rfl, rfl⟩, fun rl fn content h => ?_,
    fun rl fn e => rfl, fun rl fn content h => ?_,
    fun rl f fs => rfl, fun rl fs gs => ?_⟩
  · have he : Simple.analyze_transcript rl fn (.ok content) =
        { filename := fn, segments := [], ai_words := 0, student_words := 0,
          total_words := 0, student_ratio := 0, quality_flags := ["Empty file"] } := by
      simp only [Simple.analyze_transcript]
      rw [if_pos h]
    exact ⟨he, by rw [he]; rfl⟩
  · simp only [V2.analyze_transcript]
    rw [if_pos h]
  · simp [Simple.analyze_batch]

/-- Witness for C8: a whitespace-only file is reported as empty with
zeroed statistics. -/
theorem claim8_witness :
    Simple.analyze_transcript rlNone "w" (.ok ("  ".data)) =
      { filename := "w", segments := [], ai_words := 0, student_words := 0,
        total_words := 0, student_ratio := 0, quality_flags := ["Empty file"] } ∧
    V2.analyze_transcript rlNone "w" (.ok ("  ".data)) =
      { filename := "w", segments := [], ai_words := 0, student_words := 0,
        total_words := 0, student_ratio := 0, parsing_method := "empty",
        quality_flags := ["Empty file"] } :=
  ⟨(claim8_error_empty_handling.2.1 rlNone "w" ("  ".data) (by decide)).1,
   claim8_error_empty_handling.2.2.2.1 rlNone "w" ("  ".data) (by decide)⟩

/-! ### Machinery for the confidence bounds (C9) -/

lemma simple_classify_val_bounds (rl : RLevel) (text : List Char) :
    1 / 2 ≤ (Simple.classify_speaker rl text).2.val ∧
    (Simple.classify_speaker rl text).2.val < 1 := by
  unfold Simple.classify_speaker Simple.classify_speaker_with
  split
  · rw [ConfVal.val_const]; norm_num
  · split
    · rw [ConfVal.val_const]; norm_num
    · split
      · rw [ConfVal.val_const]; norm_num
      · exact ConfVal.sigmoidMax_mem_Ico _

lemma v2_calc_val_bounds (text : List Char) (f : Option V2.Features) :
    1 / 2 ≤ (V2.calculate_speaker_probability text f).2.val ∧
    (V2.calculate_speaker_probability text f).2.val < 1 := by
  unfold V2.calculate_speaker_probability V2.calculate_speaker_probability_with
  split
  · rw [ConfVal.val_const]; norm_num
  · split
    · rw [ConfVal.val_const]; norm_num
    · exact ConfVal.sigmoidMax_mem_Ico _

lemma simple_flushSegs_conf (rl : RLevel) (e : Nat) (st : Simple.SegState)
    (h : ∀ s ∈ st.segs, 1 / 2 ≤ s.confidence.val) :
    ∀ s ∈ Simple.flushSegs rl e st, 1 / 2 ≤ s.confidence.val := by
  intro s hs
  unfold Simple.flushSegs at hs
  split at hs
  · exact h s hs
  · split at hs
    · rcases List.mem_append.mp hs with hs2 | hs2
      · exact h s hs2
      · have heq : s = Simple.flushSeg rl e st := by simpa using hs2
        subst heq
        show (1 : ℝ) / 2 ≤ ((match st.speaker with
          | some sp => (sp, ConfVal.const (9 / 10))
          | none => Simple.classify_speaker rl (joinNl st.chunk)).2).val
        cases st.speaker with
        | none => exact (simple_classify_val_bounds rl _).1
        | some sp => rw [ConfVal.val_const]; norm_num
    · exact h s hs

lemma simple_segStep_conf (rl : RLevel) (i : Nat) (line : List Char)
    (st : Simple.SegState) (h : ∀ s ∈ st.segs, 1 / 2 ≤ s.confidence.val) :
    ∀ s ∈ (Simple.segStep rl i line st).segs, 1 / 2 ≤ s.confidence.val := by
  unfold Simple.segStep
  split
  · split
    · exact h
    · exact h
  · split
    · next rc heq =>
      split
      · exact simple_flushSegs_conf rl (i - 1) st h
      · exact h
    · exact h

/-- Every segment emitted by the simple segmenter has confidence at
least one half. -/
lemma simple_segments_conf (rl : RLevel) (content : List Char) :
    ∀ s ∈ Simple.segment_transcript rl content, 1 / 2 ≤ s.confidence.val := by
  have hmain : ∀ s ∈ Simple.segsMain rl content, 1 / 2 ≤ s.confidence.val := by
    apply simple_flushSegs_conf
    exact simple_segLoop_pres rl (fun _ st => ∀ s ∈ st.segs, 1 / 2 ≤ s.confidence.val)
      (fun i line st h => simple_segStep_conf rl i line st h)
      (splitNl content) 0 _ (by simp)
  simp only [Simple.segment_transcript]
  split
  · split
    · intro s hs
      simp only [List.mem_singleton] at hs
      subst hs
      exact (simple_classify_val_bounds rl content).1
    · simp
  · exact hmain

/-- Claim C9: the content classifiers of the simple and v2 variants
always return a confidence in `[1/2, 1)` — explicit-marker hits give
0.95, blank text gives 0.5, and the sigmoid path gives
`max(p, 1-p) < 1` — and consequently the mean confidence score of any
analysis with at least one segment is at least `1/2`. -/
theorem claim9_confidence_bounds :
    (∀ (rl : RLevel) (text : List Char),
      1 / 2 ≤ (Simple.classify_speaker rl text).2.val ∧
      (Simple.classify_speaker rl text).2.val < 1) ∧
    (∀ (rl : RLevel) (text : List Char), isBlankL text = true →
      Simple.classify_speaker rl text = (Speaker.AI, ConfVal.const (1 / 2))) ∧
    (∀ (rl : RLevel) (text : List Char), isBlankL text = false →
      searchAny Simple.student_markers text = true →
      (Simple.classify_speaker rl text).2 = ConfVal.const (19 / 20)) ∧
    (∀ (text : List Char) (f : Option V2.Features),
      searchAny V2.explicit_ai_markers text = true →
      (V2.calculate_speaker_probability text f).2 = ConfVal.const (19 / 20)) ∧
    (∀ (text : List Char) (f : Option V2.Features),
      1 / 2 ≤ (V2.calculate_speaker_probability text f).2.val ∧
      (V2.calculate_speaker_probability text f).2.val < 1) ∧
    (∀ (rl : RLevel) (fn : String) (input : Except String (List Char)),
      (Simple.analyze_transcript rl fn input).segments ≠ [] →
      1 / 2 ≤ Simple.confidence_score (Simple.analyze_transcript rl fn input)) := by
  refine ⟨simple_classify_val_bounds, fun rl text h => ?_, fun rl text hb hs => ?_,
    fun text f ha => ?_, v2_calc_val_bounds, fun rl fn input hne => ?_⟩
  · simp [Simple.classify_speaker, Simple.classify_speaker_with, h]
  · simp [Simple.classify_speaker, Simple.classify_speaker_with, hb, hs]
  · simp [V2.calculate_speaker_probability, V2.calculate_speaker_probability_with, ha]
  · cases input with
    | error e => exact absurd rfl hne
    | ok content =>
      by_cases hb : isBlankL content = true
      · have he : Simple.analyze_transcript rl fn (.ok content) =
            { filename := fn, segments := [], ai_words := 0, student_words := 0,
              total_words := 0, student_ratio := 0,
              quality_flags := ["Empty file"] } := by
          simp only [Simple.analyze_transcript]
          rw [if_pos hb]
        rw [he] at hne
        exact absurd rfl hne
      · have he := simple_analyze_ok_eq rl fn content (by simpa using hb)
        rw [he] at hne ⊢
        have hseg : (Simple.aggregate fn (Simple.segment_transcript rl content)).segments
            = Simple.segment_transcript rl content := rfl
        rw [hseg] at hne
        show (1 : ℝ) / 2 ≤ Simple.avgConf (Simple.segment_transcript rl content)
        unfold Simple.avgConf
        rw [if_neg (by simpa [List.isEmpty_iff] using hne)]
        have hlen : (Simple.confVals (Simple.segment_transcript rl content)).length =
            (Simple.segment_transcript rl content).length := List.length_map _ _
        rw [← hlen]
        apply half_le_sum_div_length
        · intro x hx
          simp only [Simple.confVals, List.mem_map] at hx
          obtain ⟨s, hsm, rfl⟩ := hx
          exact simple_segments_conf rl content s hsm
        · simpa [Simple.confVals] using hne

/-- Witness for C9: on the scenario transcript the mean confidence is
at least one half, and the classifier on blank text yields
`('AI', 0.5)`. -/
theorem claim9_witness :
    1 / 2 ≤ Simple.confidence_score
      (Simple.analyze_transcript rlNone "t" (.ok scenarioInput)) ∧
    Simple.classify_speaker rlNone [] = (Speaker.AI, ConfVal.const (1 / 2)) :=
  ⟨claim9_confidence_bounds.2.2.2.2.2 rlNone "t" (.ok scenarioInput) (by decide),
   claim9_confidence_bounds.2.1 rlNone [] (by decide)⟩

/-- Claim C10: when a non-blank line matches a marker whose role equals
the open segment's role, the segmenter appends the raw line (marker
prefix and all); the stripped remainder is used only when the line
opens a new segment.  Consequently, on
`"Student: hi\nStudent: more and things"` the single segment's text
retains the second marker token and its word count is 5, counting
`Student`. -/
theorem claim10_raw_append_same_role (rl : RLevel) (i : Nat) (line : List Char)
    (st : Simple.SegState) (rc : Speaker × List Char)
    (hbl : isBlankL line = false)
    (hdet : Simple.detect_marker line = some rc) :
    (st.speaker = some rc.1 →
      Simple.segStep rl i line st = { st with chunk := st.chunk ++ [line] }) ∧
    (st.speaker ≠ some rc.1 →
      (Simple.segStep rl i line st).chunk =
        (if rc.2.isEmpty then [] else [rc.2]) ∧
      (Simple.segStep rl i line st).speaker = some rc.1 ∧
      (Simple.segStep rl i line st).startLine = i) ∧
    ((Simple.segment_transcript rlNone
        ("Student: hi\nStudent: more and things".data)).map
      (fun s => (s.text, s.word_count)) =
      [("hi\nStudent: more and things".data, 5)]) := by
  refine ⟨fun hsp => ?_, fun hsp => ?_, by decide⟩
  · simp [Simple.segStep, hbl, hdet, hsp]
  · refine ⟨?_, ?_, ?_⟩ <;> simp [Simple.segStep, hbl, hdet, hsp]

/-- Witness for C10: appending a same-role marker line to an open
student chunk keeps the raw line. -/
theorem claim10_witness :
    Simple.segStep rlNone 1 ("Student: more and things".data)
      { segs := [], chunk := ["hi".data], speaker := some Speaker.Student,
        startLine := 0 } =
      { segs := [], chunk := ["hi".data, "Student: more and things".data],
        speaker := some Speaker.Student, startLine := 0 } :=
  (claim10_raw_append_same_role rlNone 1 ("Student: more and things".data)
    { segs := [], chunk := ["hi".data], speaker := some Speaker.Student,
      startLine := 0 }
    (Speaker.Student, "more and things".data) (by decide) (by decide)).1 rfl

end WhoSaidThat
